import Mathlib

set_option linter.unusedSectionVars false

/-!
Shallow embedding of the GoSTL repository's circular-buffer containers
(`Deque` from the deque package and `Stack` from the Stack package) and
proofs of the specification claims about them.

The Go code is modelled in its sequential semantics: every atomic
load/store and compare-and-swap succeeds on the first attempt, so each
exported operation becomes a pure function on an explicit state record.
`make([]T, n)` zero-initialisation is modelled with `default`
(`Inhabited`), and Go's two-value `(T, bool)` returns become `Option`.
-/

namespace GoSTL

variable {α : Type} [Inhabited α]

/-- Read `l[i]` as Go array indexing; out-of-range reads (which never occur
on the paths modelled here) give the zero value. -/
def elemAt (l : List α) (i : Nat) : α := l.getD i default

/-- Go's parallel assignment `l[i], l[j] = l[j], l[i]`. -/
def swapIdx (l : List α) (i j : Nat) : List α :=
  (l.set i (elemAt l j)).set j (elemAt l i)

/-- Model of `newData := make([]T, n)` followed by `copy(newData, src)`
(possibly done in two contiguous pieces): the first `min n |src|` slots
come from `src`, the rest stay zero-valued. -/
def goMake (n : Nat) (src : List α) : List α :=
  src.take n ++ List.replicate (n - min src.length n) (default : α)

/-- State of `Deque.Deque[T]`: backing slice, front index, back index,
live element count and the initial-capacity floor. -/
structure Deque (α : Type) where
  data : List α
  front : Nat
  back : Nat
  length : Nat
  initCap : Nat
deriving DecidableEq

namespace Deque

/-- Capacity of the backing storage (`header.cap`; the backing slice always
has `len == cap` in the source). -/
def cap (q : Deque α) : Nat := q.data.length

/-- `Init` resets the deque: capacity is `n` raised to the floor 8. -/
def Init (n : Nat) : Deque α :=
  let capacity := if n > 8 then n else 8
  ⟨List.replicate capacity default, 0, 0, 0, capacity⟩

/-- `NewDeque` with an optional positive initial capacity (`Init` is called
and recomputes the floor, overwriting `initCap`). -/
def NewDeque (c : Nat) : Deque α := Init (if 0 < c then c else 8)

/-- `Empty` returns true iff no elements are held. -/
def Empty (q : Deque α) : Bool := q.length == 0

/-- `Len` returns the number of live elements. -/
def Len (q : Deque α) : Nat := q.length

/-- `Capacity` returns the backing capacity. -/
def Capacity (q : Deque α) : Nat := q.data.length

/-- The live window as read by `internalResize`/`Copy`: one contiguous
piece when `front < back`, otherwise the wrapped two-piece window. -/
def liveWindow (q : Deque α) : List α :=
  if q.front < q.back then (q.data.drop q.front).take (q.back - q.front)
  else q.data.drop q.front ++ q.data.take q.back

/-- `internalResize`: repack the live window densely into a fresh backing
slice of `newCap` slots, resetting `front = 0`, `back = length`. -/
def internalResize (q : Deque α) (newCap : Nat) : Deque α :=
  { q with data := goMake newCap q.liveWindow, front := 0, back := q.length }

/-- `PushBack`: fast path writes at `back` and advances it modulo the
capacity; when full, double the capacity (or fall back to `initCap` if the
doubled value is zero) and then write. -/
def PushBack (q : Deque α) (val : α) : Deque α :=
  if q.length < q.cap then
    { q with
      data := q.data.set q.back val
      back := (q.back + 1) % q.cap
      length := q.length + 1 }
  else
    let newCap := if q.cap * 2 = 0 then q.initCap else q.cap * 2
    let q1 := q.internalResize newCap
    { q1 with
      data := q1.data.set q1.back val
      back := (q1.back + 1) % q1.cap
      length := q1.length + 1 }

/-- `PushFront`: grow when full, then step `front` backwards modulo the
capacity and write there. -/
def PushFront (q : Deque α) (val : α) : Deque α :=
  let q1 :=
    if q.length = q.cap then
      q.internalResize (if q.cap * 2 = 0 then q.initCap else q.cap * 2)
    else q
  let newFront := (q1.front + q1.cap - 1) % q1.cap
  { q1 with data := q1.data.set newFront val, front := newFront, length := q1.length + 1 }

/-- `PopBack` steps `back` backwards and returns the uncovered element;
absent on an empty deque. -/
def PopBack (q : Deque α) : Option α × Deque α :=
  if q.length = 0 then (none, q)
  else
    let newBack := (q.back + q.cap - 1) % q.cap
    (some (elemAt q.data newBack), { q with back := newBack, length := q.length - 1 })

/-- `PopFront` returns the element at `front` and advances `front`; absent
on an empty deque. -/
def PopFront (q : Deque α) : Option α × Deque α :=
  if q.length = 0 then (none, q)
  else
    (some (elemAt q.data q.front),
      { q with front := (q.front + 1) % q.cap, length := q.length - 1 })

/-- `Front` peeks the front element. -/
def Front (q : Deque α) : Option α :=
  if q.length = 0 then none else some (elemAt q.data q.front)

/-- `Back` peeks the back element. -/
def Back (q : Deque α) : Option α :=
  if q.length = 0 then none else some (elemAt q.data ((q.back + q.cap - 1) % q.cap))

/-- `Clear` resets the boundaries and count, keeping the storage. -/
def Clear (q : Deque α) : Deque α := { q with front := 0, back := 0, length := 0 }

/-- `At` with Python-style negative indexing; absent when the resolved
index is outside `[0, length)`. -/
def At (q : Deque α) (index : Int) : Option α :=
  let idx := if index < 0 then index + q.length else index
  if idx < 0 ∨ (q.length : Int) ≤ idx then none
  else some (elemAt q.data ((q.front + idx.toNat) % q.data.length))

/-- `ShrinkToFit`: empty resets to a fresh buffer at the floor; a full
buffer is kept; otherwise repack at `max(length, initCap)`. -/
def ShrinkToFit (q : Deque α) : Deque α :=
  if q.length = 0 then Init q.initCap
  else if q.length = q.cap then q
  else q.internalResize (if q.length < q.initCap then q.initCap else q.length)

/-- `Copy`: a fresh deque whose backing slice is exactly the live window
packed densely (the `NewDeque`-allocated storage is replaced by a
length-sized slice; only `initCap` survives from it). -/
def Copy (q : Deque α) : Deque α :=
  let newDeque : Deque α := NewDeque q.Capacity
  if q.length = 0 then newDeque
  else
    { newDeque with
      data := goMake q.length q.liveWindow
      front := 0
      back := q.length
      length := q.length }

/-- `Set` with negative indexing; failure leaves the deque unchanged. -/
def Set (q : Deque α) (index : Int) (value : α) : Bool × Deque α :=
  let idx := if index < 0 then index + q.length else index
  if idx < 0 ∨ (q.length : Int) ≤ idx then (false, q)
  else (true, { q with data := q.data.set ((q.front + idx.toNat) % q.cap) value })

/-- `Swap`: false immediately on equal raw indices, then resolves negative
indices, checks ranges and swaps the two slots. -/
def Swap (q : Deque α) (i j : Int) : Bool × Deque α :=
  if i = j then (false, q)
  else
    let i' := if i < 0 then i + q.length else i
    let j' := if j < 0 then j + q.length else j
    if i' < 0 ∨ (q.length : Int) ≤ i' ∨ j' < 0 ∨ (q.length : Int) ≤ j' then (false, q)
    else
      let posI := (q.front + i'.toNat) % q.cap
      let posJ := (q.front + j'.toNat) % q.cap
      (true, { q with data := swapIdx q.data posI posJ })

end Deque

/-- The loop of `reverseCircular`: for `i` running over `fuel` steps, swap
slots `(start+i) % capacity` and `(endI-1-i) % capacity`. -/
def revCircLoop (start endI capacity : Nat) : Nat → Nat → List α → List α
  | _, 0, l => l
  | i, f + 1, l =>
    revCircLoop start endI capacity (i + 1) f
      (swapIdx l ((start + i) % capacity) ((endI - 1 - i) % capacity))

/-- Go's parallel swap on a slice, with its bounds checks: reading
`l[i]` with `i` at or past `len(l)` panics, modelled as `none`. -/
def swapIdxChecked (l : List α) (i j : Nat) : Option (List α) :=
  if i < l.length ∧ j < l.length then some (swapIdx l i j) else none

/-- The loop of `reverseCircular` as written in the source: for `i` over
`fuel` steps, swap slots `(start+i) % capacity` and `(endI-1-i) % capacity`,
propagating a panic. -/
def revCircLoopGo (start endI capacity : Nat) : Nat → Nat → List α → Option (List α)
  | _, 0, l => some l
  | i, f + 1, l =>
    match swapIdxChecked l ((start + i) % capacity) ((endI - 1 - i) % capacity) with
    | none => none
    | some l1 => revCircLoopGo start endI capacity (i + 1) f l1

/-- `reverseCircular data start endI count`: the source computes
`capacity := cap(data)`, and at its only call sites (in `Rotate`) `data` is
the slice `(*[1 << 30]T)(header.data)[:capacity]` taken from a
pointer-to-array, whose Go `cap` is `1 << 30` (not the ring capacity).
The modulus is therefore `2^30`, so indices never wrap at the ring
boundary, and indexing at or past `len(data)` panics (`none`). -/
def reverseCircular (l : List α) (start endI count : Nat) : Option (List α) :=
  revCircLoopGo start endI (2 ^ 30) 0 (count / 2) l

namespace Deque

/-- `Rotate`: normalise `n` into `[0, length)` with Go's truncated `%`
followed by the negative fix-up, then apply the three reversals through
`reverseCircular`. When the live window wraps past the end of the backing
array, the first reversal indexes past the slice length and the call
panics (`none`). -/
def Rotate (q : Deque α) (n : Int) : Option (Deque α) :=
  if q.length ≤ 1 then some q
  else
    let r0 := Int.tmod n q.length
    let r := if r0 < 0 then r0 + q.length else r0
    if r = 0 then some q
    else
      let k := r.toNat
      match reverseCircular q.data q.front (q.front + q.length) q.length with
      | none => none
      | some d1 =>
        match reverseCircular d1 q.front (q.front + k) k with
        | none => none
        | some d2 =>
          match reverseCircular d2 (q.front + k) (q.front + q.length) (q.length - k) with
          | none => none
          | some d3 => some { q with data := d3 }

/-- `Reverse`: in-place symmetric swap of `front+i` and `front+length-1-i`
modulo the capacity, for `i < length/2`. -/
def Reverse (q : Deque α) : Deque α :=
  if q.length ≤ 1 then q
  else { q with data := revCircLoop q.front (q.front + q.length) q.cap 0 (q.length / 2) q.data }

/-- Validity invariant of a deque state: the count fits the capacity, the
boundaries are in range and consistent, and the capacity respects the
initial-capacity floor, itself at least 8. -/
def Inv (q : Deque α) : Prop :=
  q.length ≤ q.cap ∧ q.front < q.cap ∧ q.back ≤ q.cap ∧
  q.back % q.cap = (q.front + q.length) % q.cap ∧
  8 ≤ q.initCap ∧ q.initCap ≤ q.cap

instance (q : Deque α) : Decidable q.Inv := by unfold Inv; exact inferInstance

/-- Push a whole list through `PushBack`, left to right. -/
def pushBackAll (q : Deque α) (vs : List α) : Deque α := vs.foldl PushBack q

end Deque

/-- State of `Stack.Stack[T]`: backing slice, top index (equal to the
count) and the initial-capacity floor. -/
structure Stack (α : Type) where
  data : List α
  top : Nat
  initCap : Nat
deriving DecidableEq

namespace Stack

/-- Capacity of the stack's backing storage. -/
def cap (s : Stack α) : Nat := s.data.length

/-- `Init` resets the stack with capacity `n` raised to the floor 8. -/
def Init (n : Nat) : Stack α :=
  let capacity := if n > 8 then n else 8
  ⟨List.replicate capacity default, 0, capacity⟩

/-- `NewStack` with an optional positive initial capacity. -/
def NewStack (c : Nat) : Stack α := Init (if 0 < c then c else 8)

/-- `Empty` returns true iff the stack holds no elements. -/
def Empty (s : Stack α) : Bool := s.top == 0

/-- `internalResize`: copy the first `top` slots into a fresh slice of
`newCap` slots (truncating if it does not fit). -/
def internalResize (s : Stack α) (newCap : Nat) : Stack α :=
  { s with data := goMake newCap (s.data.take s.top) }

/-- `Push`: fast path writes at `top`; when full, double the capacity (or
`initCap` if the doubled value is zero) and then write. -/
def Push (s : Stack α) (val : α) : Stack α :=
  if s.top < s.cap then { s with data := s.data.set s.top val, top := s.top + 1 }
  else
    let newCap := if s.cap * 2 = 0 then s.initCap else s.cap * 2
    let s1 := s.internalResize newCap
    { s1 with data := s1.data.set s1.top val, top := s1.top + 1 }

/-- `Pop` removes and returns the top element; absent when empty. -/
def Pop (s : Stack α) : Option α × Stack α :=
  if s.top = 0 then (none, s)
  else (some (elemAt s.data (s.top - 1)), { s with top := s.top - 1 })

/-- `Top` peeks the top element. -/
def Top (s : Stack α) : Option α :=
  if s.top = 0 then none else some (elemAt s.data (s.top - 1))

/-- `Length` returns the number of elements. -/
def Length (s : Stack α) : Nat := s.top

/-- `Capacity` returns the backing capacity. -/
def Capacity (s : Stack α) : Nat := s.data.length

/-- `Clear` drops all elements, keeping the storage. -/
def Clear (s : Stack α) : Stack α := { s with top := 0 }

/-- `Resize` forces the capacity to `newCap`, first truncating `top` down
when the new capacity is smaller. -/
def Resize (s : Stack α) (newCap : Nat) : Stack α :=
  let s1 := if newCap < s.top then { s with top := newCap } else s
  s1.internalResize newCap

/-- `TrimToSize`: empty resets the storage to `initCap` slots; otherwise
shrink the storage to exactly `top` slots when it is larger. -/
def TrimToSize (s : Stack α) : Stack α :=
  if s.top = 0 then s.internalResize s.initCap
  else if s.top < s.cap then s.internalResize s.top
  else s

end Stack

/-- The loop of the stack's linear `reverse` closure: swap `i` and `j`,
moving inward while `i < j`. -/
def revLinLoop : Nat → Nat → List α → List α
  | i, j, l =>
    if h : i < j then revLinLoop (i + 1) (j - 1) (swapIdx l i j) else l
termination_by i j _ => j - i
decreasing_by omega

namespace Stack

/-- `Reverse` swaps `i` with `top-1-i` for `i < top/2`. -/
def Reverse (s : Stack α) : Stack α :=
  { s with data := revLinLoop 0 (s.top - 1) s.data }

/-- `Rotate`: normalise `n` into `[0, top)` with Go's truncated `%` and the
negative fix-up, then three linear reversals over the first `top` slots
(the storage beyond `top` is untouched). -/
def Rotate (s : Stack α) (n : Int) : Stack α :=
  if s.top ≤ 1 then s
  else
    let r0 := Int.tmod n s.top
    let r := if r0 < 0 then r0 + s.top else r0
    if r = 0 then s
    else
      let k := r.toNat
      let pre := s.data.take s.top
      let d1 := revLinLoop 0 (s.top - 1) pre
      let d2 := revLinLoop 0 (k - 1) d1
      let d3 := revLinLoop k (s.top - 1) d2
      { s with data := d3 ++ s.data.drop s.top }

/-- `Copy`: a fresh stack whose backing slice holds exactly the first
`top` elements. -/
def Copy (s : Stack α) : Stack α :=
  ⟨goMake s.top (s.data.take s.top), s.top, s.initCap⟩

/-- `At` addressed from the top (`index 0` is the most recently pushed),
with negative indexing; absent when out of range. -/
def At (s : Stack α) (index : Int) : Option α :=
  let idx := if index < 0 then index + s.top else index
  if idx < 0 ∨ (s.top : Int) ≤ idx then none
  else some (elemAt s.data (s.top - 1 - idx.toNat))

/-- `Set` addressed from the top, with negative indexing; failure leaves
the stack unchanged. -/
def Set (s : Stack α) (index : Int) (val : α) : Bool × Stack α :=
  let idx := if index < 0 then index + s.top else index
  if idx < 0 ∨ (s.top : Int) ≤ idx then (false, s)
  else (true, { s with data := s.data.set (s.top - 1 - idx.toNat) val })

/-- Validity invariant of a stack state: the count fits the capacity and
the initial-capacity floor is at least 8. (The capacity itself may drop
below `initCap` through `Resize`.) -/
def Inv (s : Stack α) : Prop := s.top ≤ s.cap ∧ 8 ≤ s.initCap

instance (s : Stack α) : Decidable s.Inv := by unfold Inv; exact inferInstance

/-- Push a whole list, left to right. -/
def pushAll (s : Stack α) (vs : List α) : Stack α := vs.foldl Push s

end Stack

/-- Physical slot of logical position `p` in a ring of the given capacity
with the given front index. -/
def pos (capacity front p : Nat) : Nat := (front + p) % capacity

/-- Logical position of physical slot `q` (inverse of `pos` when
`front < capacity`). -/
def wpos (capacity front q : Nat) : Nat := (q + capacity - front) % capacity

/-- Example deque: 1..5 pushed at the back of a fresh deque (no wrap). -/
def exD5 : Deque ℕ := (Deque.NewDeque 8).pushBackAll [1, 2, 3, 4, 5]

/-- Example deque: the live window 1..5 wraps past the end of the backing
array (front = 6, capacity 8). -/
def exDW : Deque ℕ :=
  let d0 := (Deque.NewDeque 8).pushBackAll [9, 9, 9, 9, 9, 9]
  let d1 := ((((((d0.PopFront).2.PopFront).2.PopFront).2.PopFront).2.PopFront).2.PopFront).2
  d1.pushBackAll [1, 2, 3, 4, 5]

/-- Example stack: 10, 20, 30 pushed onto a fresh stack. -/
def exS3 : Stack ℕ := (Stack.NewStack 8).pushAll [10, 20, 30]

/-- Example stack: 0..4 pushed onto a fresh stack. -/
def exS5 : Stack ℕ := (Stack.NewStack 8).pushAll [0, 1, 2, 3, 4]

theorem elemAt_eq_getElem (l : List α) (i : Nat) (h : i < l.length) : elemAt l i = l[i] := by
  simp [elemAt, List.getD_eq_getElem?_getD, List.getElem?_eq_getElem h]

theorem elemAt_oob (l : List α) (i : Nat) (h : l.length ≤ i) : elemAt l i = default := by
  simp [elemAt, List.getD_eq_getElem?_getD, List.getElem?_eq_none h]

theorem length_swapIdx (l : List α) (i j : Nat) : (swapIdx l i j).length = l.length := by
  simp [swapIdx]

theorem elemAt_set (l : List α) (i : Nat) (v : α) (q : Nat) :
    elemAt (l.set i v) q = if q = i ∧ i < l.length then v else elemAt l q := by
  simp only [elemAt, List.getD_eq_getElem?_getD, List.getElem?_set]
  by_cases hq : i = q
  · subst hq
    by_cases hi : i < l.length
    · simp [hi]
    · simp [hi, List.getElem?_eq_none (by omega : l.length ≤ i)]
  · have h : ¬(q = i ∧ i < l.length) := fun hc => hq hc.1.symm
    rw [if_neg hq, if_neg h]

theorem elemAt_swapIdx (l : List α) (i j q : Nat) (hi : i < l.length) (hj : j < l.length) :
    elemAt (swapIdx l i j) q =
      if q = j then elemAt l i else if q = i then elemAt l j else elemAt l q := by
  rw [swapIdx, elemAt_set, elemAt_set]
  simp only [List.length_set]
  by_cases h1 : q = j
  · simp [h1, hj]
  · simp only [h1, and_true, if_false]
    by_cases h2 : q = i
    · simp [h2, hi]
    · simp [h2]

theorem set_elemAt_self (l : List α) (p : Nat) : l.set p (elemAt l p) = l := by
  apply List.ext_getElem?
  intro i
  rw [List.getElem?_set]
  by_cases h : p = i
  · subst h
    by_cases hp : p < l.length
    · simp [hp, elemAt_eq_getElem l p hp, List.getElem?_eq_getElem hp]
    · simp only [hp, if_false]
      rw [List.getElem?_eq_none (by omega)]
      simp
  · simp [h]

theorem goMake_length (n : Nat) (src : List α) : (goMake n src).length = n := by
  simp only [goMake, List.length_append, List.length_take, List.length_replicate]
  omega

theorem elemAt_goMake (n : Nat) (src : List α) (q : Nat) :
    elemAt (goMake n src) q = if q < n ∧ q < src.length then elemAt src q else default := by
  simp only [goMake, elemAt, List.getD_eq_getElem?_getD, List.getElem?_append,
    List.length_take, List.getElem?_take, List.getElem?_replicate]
  by_cases h2 : q < n ∧ q < src.length
  · have h1 : q < min n src.length := by omega
    rw [if_pos h1, if_pos h2.1, if_pos h2]
  · have h1 : ¬q < min n src.length := by omega
    rw [if_neg h1, if_neg h2]
    split <;> simp

theorem goMake_of_le (n : Nat) (src : List α) (h : src.length ≤ n) :
    goMake n src = src ++ List.replicate (n - src.length) (default : α) := by
  simp [goMake, List.take_of_length_le h, Nat.min_eq_left h]

theorem goMake_of_ge (n : Nat) (src : List α) (h : n ≤ src.length) :
    goMake n src = src.take n := by
  simp [goMake, Nat.min_eq_right h, Nat.sub_self]

theorem elemAt_take (l : List α) (t q : Nat) :
    elemAt (l.take t) q = if q < t then elemAt l q else default := by
  simp only [elemAt, List.getD_eq_getElem?_getD, List.getElem?_take]
  split
  · rfl
  · simp

theorem elemAt_drop (l : List α) (d q : Nat) : elemAt (l.drop d) q = elemAt l (d + q) := by
  simp only [elemAt, List.getD_eq_getElem?_getD, List.getElem?_drop]

theorem elemAt_append (xs ys : List α) (q : Nat) :
    elemAt (xs ++ ys) q = if q < xs.length then elemAt xs q else elemAt ys (q - xs.length) := by
  simp only [elemAt, List.getD_eq_getElem?_getD, List.getElem?_append]
  split <;> rfl

theorem elemAt_replicate (n q : Nat) :
    elemAt (List.replicate n (default : α)) q = default := by
  simp only [elemAt, List.getD_eq_getElem?_getD, List.getElem?_replicate]
  split <;> rfl

theorem tmod_fixup (n L : Int) (hL : 0 < L) :
    (if Int.tmod n L < 0 then Int.tmod n L + L else Int.tmod n L) = n % L := by
  have h1 : Int.tmod n L % L = n % L := by
    rw [Int.tmod_def]
    have h : n - L * n.tdiv L = n + L * (-(n.tdiv L)) := by ring
    rw [h, Int.add_mul_emod_self_left]
  have h2 : Int.tmod n L < L := Int.tmod_lt_of_pos n hL
  have h3 : -L < Int.tmod n L := by
    rcases le_or_lt 0 n with hn | hn
    · have := Int.tmod_nonneg L hn; omega
    · have hne : Int.tmod n L = -(Int.tmod (-n) L) := by
        rw [Int.tmod_def, Int.tmod_def, Int.neg_tdiv]; ring
      have h4 : Int.tmod (-n) L < L := Int.tmod_lt_of_pos _ hL
      omega
  have h5 : 0 ≤ n % L := Int.emod_nonneg n (by omega)
  have h6 : n % L < L := Int.emod_lt_of_pos n hL
  by_cases hr : Int.tmod n L < 0
  · rw [if_pos hr]
    have h7 : (Int.tmod n L + L) % L = n % L := by
      have := Int.add_mul_emod_self_left (Int.tmod n L) L 1
      rw [Int.mul_one] at this
      rw [this, h1]
    have h8 : (Int.tmod n L + L) % L = Int.tmod n L + L :=
      Int.emod_eq_of_lt (by omega) (by omega)
    omega
  · rw [if_neg hr]
    have h8 : Int.tmod n L % L = Int.tmod n L :=
      Int.emod_eq_of_lt (by omega) (by omega)
    omega

theorem pos_lt (capacity front p : Nat) (h : 0 < capacity) : pos capacity front p < capacity :=
  Nat.mod_lt _ h

theorem pos_inj (capacity front : Nat) {p p' : Nat} (hp : p < capacity) (hp' : p' < capacity)
    (h : pos capacity front p = pos capacity front p') : p = p' := by
  unfold pos at h
  have h0 : front + p ≡ front + p' [MOD capacity] := h
  have h1 : p ≡ p' [MOD capacity] := Nat.ModEq.add_left_cancel' front h0
  have h2 : p % capacity = p' % capacity := h1
  rwa [Nat.mod_eq_of_lt hp, Nat.mod_eq_of_lt hp'] at h2

theorem add_mod_absorb (front x capacity : Nat) :
    (front + x % capacity) % capacity = (front + x) % capacity := by
  have h : front + x % capacity ≡ front + x [MOD capacity] :=
    Nat.ModEq.add_left front (Nat.mod_modEq x capacity)
  exact h

theorem pos_wpos (capacity front q : Nat) (hf : front < capacity) (hq : q < capacity) :
    pos capacity front (wpos capacity front q) = q := by
  unfold pos wpos
  rw [add_mod_absorb]
  have h1 : front + (q + capacity - front) = q + capacity := by omega
  rw [h1, Nat.add_mod_right, Nat.mod_eq_of_lt hq]

theorem wpos_lt (capacity front q : Nat) (h : 0 < capacity) : wpos capacity front q < capacity :=
  Nat.mod_lt _ h

theorem wpos_pos (capacity front p : Nat) (hf : front < capacity) (hp : p < capacity) :
    wpos capacity front (pos capacity front p) = p := by
  have hc : 0 < capacity := by omega
  refine pos_inj capacity front (wpos_lt _ _ _ hc) hp ?_
  exact pos_wpos capacity front (pos capacity front p) hf (pos_lt _ _ _ hc)

theorem revCircLoop_length (start endI capacity : Nat) :
    ∀ f i (l : List α), (revCircLoop start endI capacity i f l).length = l.length := by
  intro f
  induction f with
  | zero => intro i l; rfl
  | succ f ih =>
    intro i l
    show (revCircLoop start endI capacity (i + 1) f _).length = _
    rw [ih, length_swapIdx]

theorem revCircLoop_spec (capacity front a b : Nat) (hf : front < capacity)
    (hab : a ≤ b) (hb : b ≤ capacity) :
    ∀ f i (l : List α), l.length = capacity → i + f = (b - a) / 2 →
      ∀ q, q < capacity →
        elemAt (revCircLoop (front + a) (front + b) capacity i f l) q =
          if (a + i ≤ wpos capacity front q ∧ wpos capacity front q < a + i + f) ∨
              (b - i - f ≤ wpos capacity front q ∧ wpos capacity front q < b - i) then
            elemAt l (pos capacity front (a + b - 1 - wpos capacity front q))
          else elemAt l q := by
  intro f
  induction f with
  | zero =>
    intro i l hl hif q hq
    show elemAt l q = _
    rw [if_neg (by omega)]
  | succ f ih =>
    intro i l hl hif q hq
    have hcap : 0 < capacity := by omega
    have hstep :
        revCircLoop (front + a) (front + b) capacity i (f + 1) l =
          revCircLoop (front + a) (front + b) capacity (i + 1) f
            (swapIdx l ((front + a + i) % capacity) ((front + b - 1 - i) % capacity)) := rfl
    have hPb : a + i + 1 < b := by omega
    have hleft : (front + a + i) % capacity = pos capacity front (a + i) := by
      rw [pos, Nat.add_assoc]
    have hright : (front + b - 1 - i) % capacity = pos capacity front (b - 1 - i) := by
      rw [pos]
      congr 1
      omega
    set w := wpos capacity front q with hw_def
    have hw : w < capacity := wpos_lt capacity front q hcap
    have hq_eq : pos capacity front w = q := pos_wpos capacity front q hf hq
    have hP : a + i < capacity := by omega
    have hQ : b - 1 - i < capacity := by omega
    have hPQ : a + i ≠ b - 1 - i := by omega
    have hlr : pos capacity front (a + i) ≠ pos capacity front (b - 1 - i) := by
      intro hc
      exact hPQ (pos_inj capacity front hP hQ hc)
    have hl' : (swapIdx l ((front + a + i) % capacity) ((front + b - 1 - i) % capacity)).length
        = capacity := by rw [length_swapIdx, hl]
    have hswl : (front + a + i) % capacity < l.length := by
      rw [hl, hleft]; exact pos_lt _ _ _ hcap
    have hswr : (front + b - 1 - i) % capacity < l.length := by
      rw [hl, hright]; exact pos_lt _ _ _ hcap
    rw [hstep, ih (i + 1) _ hl' (by omega) q hq]
    by_cases hC' : (a + (i + 1) ≤ w ∧ w < a + (i + 1) + f) ∨ (b - (i + 1) - f ≤ w ∧ w < b - (i + 1))
    · rw [if_pos hC', if_pos (by omega)]
      have hw' : a + b - 1 - w < capacity := by omega
      have hne1 : a + b - 1 - w ≠ a + i := by omega
      have hne2 : a + b - 1 - w ≠ b - 1 - i := by omega
      have hB : pos capacity front (a + b - 1 - w) ≠ (front + b - 1 - i) % capacity := by
        rw [hright]
        intro hc
        exact hne2 (pos_inj capacity front hw' hQ hc)
      have hA : pos capacity front (a + b - 1 - w) ≠ (front + a + i) % capacity := by
        rw [hleft]
        intro hc
        exact hne1 (pos_inj capacity front hw' hP hc)
      rw [elemAt_swapIdx _ _ _ _ hswl hswr, if_neg hB, if_neg hA]
    · rw [if_neg hC']
      by_cases hwP : w = a + i
      · rw [if_pos (by omega)]
        rw [elemAt_swapIdx _ _ _ _ hswl hswr]
        have hqleft : q = (front + a + i) % capacity := by
          rw [hleft, ← hwP, hq_eq]
        have hqright : q ≠ (front + b - 1 - i) % capacity := by
          rw [hqleft, hleft, hright]
          exact hlr
        rw [if_neg hqright, if_pos hqleft, hright]
        congr 2
        omega
      · by_cases hwQ : w = b - 1 - i
        · rw [if_pos (by omega)]
          rw [elemAt_swapIdx _ _ _ _ hswl hswr]
          have hqright : q = (front + b - 1 - i) % capacity := by
            rw [hright, ← hwQ, hq_eq]
          rw [if_pos hqright, hleft]
          congr 2
          omega
        · rw [if_neg (by omega)]
          rw [elemAt_swapIdx _ _ _ _ hswl hswr]
          have hqleft : q ≠ (front + a + i) % capacity := by
            rw [hleft, ← hq_eq]
            intro hc
            exact hwP (pos_inj capacity front hw hP hc)
          have hqright : q ≠ (front + b - 1 - i) % capacity := by
            rw [hright, ← hq_eq]
            intro hc
            exact hwQ (pos_inj capacity front hw hQ hc)
          rw [if_neg hqright, if_neg hqleft]

theorem mod_sub_of_window (L x : Nat) (h1 : L ≤ x) (h2 : x < 2 * L) : x % L = x - L := by
  rw [Nat.mod_eq_sub_mod h1, Nat.mod_eq_of_lt (by omega)]

namespace Deque

theorem eq_of_fields {q1 q2 : Deque α} (hd : q1.data = q2.data) (hf : q1.front = q2.front)
    (hb : q1.back = q2.back) (hl : q1.length = q2.length) (hi : q1.initCap = q2.initCap) :
    q1 = q2 := by
  cases q1
  cases q2
  simp_all

end Deque

theorem emod_add_neg_emod (n L : Int) (hL : 0 < L) :
    n % L + (-n) % L = 0 ∨ n % L + (-n) % L = L := by
  have h1 : (n % L + (-n) % L) % L = 0 := by
    rw [← Int.add_emod, Int.add_right_neg, Int.zero_emod]
  obtain ⟨c, hc⟩ := Int.dvd_of_emod_eq_zero h1
  have hb1 : 0 ≤ n % L := Int.emod_nonneg n (by omega)
  have hb2 : 0 ≤ (-n) % L := Int.emod_nonneg (-n) (by omega)
  have hb3 : n % L < L := Int.emod_lt_of_pos n hL
  have hb4 : (-n) % L < L := Int.emod_lt_of_pos (-n) hL
  have hc2 : c = 0 ∨ c = 1 := by
    by_contra hcon
    push_neg at hcon
    rcases lt_or_le c 0 with hneg | hpos
    · have : L * c ≤ L * (-1) := by
        apply mul_le_mul_of_nonneg_left (by omega) (by omega)
      omega
    · have h5 : 2 ≤ c := by omega
      have : L * 2 ≤ L * c := by
        apply mul_le_mul_of_nonneg_left (by omega) (by omega)
      omega
  rcases hc2 with h | h <;> rw [h] at hc <;> omega

theorem revLinLoop_length : ∀ (m i j : Nat) (l : List α), j - i ≤ m →
    (revLinLoop i j l).length = l.length := by
  intro m
  induction m with
  | zero =>
    intro i j l hm
    rw [revLinLoop, dif_neg (by omega)]
  | succ m ih =>
    intro i j l hm
    rw [revLinLoop]
    by_cases h : i < j
    · rw [dif_pos h, ih (i + 1) (j - 1) _ (by omega), length_swapIdx]
    · rw [dif_neg h]

theorem revLinLoop_spec : ∀ (m i j : Nat) (l : List α), j - i ≤ m → j < l.length →
    ∀ q, q < l.length →
      elemAt (revLinLoop i j l) q =
        if i ≤ q ∧ q ≤ j then elemAt l (i + j - q) else elemAt l q := by
  intro m
  induction m with
  | zero =>
    intro i j l hm hj q hq
    rw [revLinLoop, dif_neg (by omega)]
    by_cases hc : i ≤ q ∧ q ≤ j
    · rw [if_pos hc, show i + j - q = q from by omega]
    · rw [if_neg hc]
  | succ m ih =>
    intro i j l hm hj q hq
    rw [revLinLoop]
    by_cases h : i < j
    · rw [dif_pos h]
      have hij : i < l.length := by omega
      have hjl : j < l.length := hj
      have hlen : (swapIdx l i j).length = l.length := length_swapIdx l i j
      rw [ih (i + 1) (j - 1) _ (by omega) (by omega) q (by omega)]
      by_cases hqi : q = i
      · rw [if_neg (by omega), if_pos (by omega)]
        rw [elemAt_swapIdx l i j q hij hjl, if_neg (by omega), if_pos hqi]
        rw [show i + j - q = j from by omega]
      · by_cases hqj : q = j
        · rw [if_neg (by omega), if_pos (by omega)]
          rw [elemAt_swapIdx l i j q hij hjl, if_pos hqj]
          rw [show i + j - q = i from by omega]
        · by_cases hc : i ≤ q ∧ q ≤ j
          · rw [if_pos (by omega), if_pos hc]
            have harg : i + 1 + (j - 1) - q = i + j - q := by omega
            rw [harg]
            rw [elemAt_swapIdx l i j _ hij hjl, if_neg (by omega), if_neg (by omega)]
          · rw [if_neg (by omega), if_neg hc]
            rw [elemAt_swapIdx l i j q hij hjl, if_neg (by omega), if_neg (by omega)]
    · rw [dif_neg h]
      by_cases hc : i ≤ q ∧ q ≤ j
      · rw [if_pos hc, show i + j - q = q from by omega]
      · rw [if_neg hc]

namespace Stack

theorem eq_of_fields_s {s1 s2 : Stack α} (hd : s1.data = s2.data) (ht : s1.top = s2.top)
    (hi : s1.initCap = s2.initCap) : s1 = s2 := by
  cases s1
  cases s2
  simp_all

theorem Rotate_top (s : Stack α) (n : Int) : (s.Rotate n).top = s.top := by
  unfold Rotate
  dsimp only
  repeat' split
  all_goals rfl

theorem Rotate_initCap_s (s : Stack α) (n : Int) : (s.Rotate n).initCap = s.initCap := by
  unfold Rotate
  dsimp only
  repeat' split
  all_goals rfl

theorem Rotate_eq_s (s : Stack α) (n : Int) (h2 : 2 ≤ s.top) :
    s.Rotate n =
      if (n % (s.top : Int)).toNat = 0 then s
      else
        { s with data :=
            (revLinLoop (n % (s.top : Int)).toNat (s.top - 1)
              (revLinLoop 0 ((n % (s.top : Int)).toNat - 1)
                (revLinLoop 0 (s.top - 1) (s.data.take s.top)))
              ++ s.data.drop s.top) } := by
  have hL0 : (0 : Int) < (s.top : Int) := by omega
  have hfix := tmod_fixup n (s.top : Int) hL0
  have hnn : 0 ≤ n % (s.top : Int) := Int.emod_nonneg n (by omega)
  unfold Rotate
  rw [if_neg (by omega)]
  simp only [hfix]
  by_cases hr : n % (s.top : Int) = 0
  · rw [if_pos hr, if_pos (by rw [hr]; rfl)]
  · rw [if_neg hr, if_neg (by omega)]

theorem Rotate_spec_s (s : Stack α) (n : Int) (hts : s.top ≤ s.data.length) :
    (s.Rotate n).data.length = s.data.length ∧
    (∀ q, q < s.top →
      elemAt (s.Rotate n).data q =
        elemAt s.data ((q + (s.top - (n % (s.top : Int)).toNat)) % s.top)) ∧
    (∀ q, s.top ≤ q → elemAt (s.Rotate n).data q = elemAt s.data q) := by
  by_cases h2 : 2 ≤ s.top
  · have hL0 : (0 : Int) < (s.top : Int) := by omega
    have hknn : 0 ≤ n % (s.top : Int) := Int.emod_nonneg n (by omega)
    have hkup : n % (s.top : Int) < (s.top : Int) := Int.emod_lt_of_pos n hL0
    rw [Rotate_eq_s s n h2]
    set k := (n % (s.top : Int)).toNat with hk_def
    have hkL : k < s.top := by omega
    by_cases hk0 : k = 0
    · rw [if_pos hk0]
      refine ⟨rfl, ?_, ?_⟩
      · intro p hp
        have harg : (p + (s.top - k)) % s.top = p := by
          rw [hk0, Nat.sub_zero, Nat.add_mod_right, Nat.mod_eq_of_lt hp]
        rw [harg]
      · intro p hp
        rfl
    · rw [if_neg hk0]
      have hpre : (s.data.take s.top).length = s.top := by
        rw [List.length_take]
        omega
      have hl1 : (revLinLoop 0 (s.top - 1) (s.data.take s.top)).length = s.top := by
        rw [revLinLoop_length (s.top - 1) _ _ _ (by omega), hpre]
      have hl2 : (revLinLoop 0 (k - 1) (revLinLoop 0 (s.top - 1)
          (s.data.take s.top))).length = s.top := by
        rw [revLinLoop_length (k - 1) _ _ _ (by omega), hl1]
      have hl3 : (revLinLoop k (s.top - 1) (revLinLoop 0 (k - 1) (revLinLoop 0 (s.top - 1)
          (s.data.take s.top)))).length = s.top := by
        rw [revLinLoop_length (s.top - 1) _ _ _ (by omega), hl2]
      refine ⟨?_, ?_, ?_⟩
      · show (_ ++ s.data.drop s.top).length = _
        rw [List.length_append, hl3, List.length_drop]
        omega
      · intro p hp
        show elemAt (_ ++ s.data.drop s.top) p = _
        rw [elemAt_append, if_pos (by omega : p < (revLinLoop k (s.top - 1) _).length)]
        rw [revLinLoop_spec (s.top - 1) k (s.top - 1) _ (by omega) (by omega) p (by omega)]
        by_cases hpk : p < k
        · rw [if_neg (by omega)]
          rw [revLinLoop_spec (k - 1) 0 (k - 1) _ (by omega) (by omega) p (by omega)]
          rw [if_pos (by omega)]
          rw [revLinLoop_spec (s.top - 1) 0 (s.top - 1) _ (by omega) (by omega)
            (0 + (k - 1) - p) (by omega)]
          rw [if_pos (by omega)]
          rw [elemAt_take, if_pos (by omega)]
          have harg : (p + (s.top - k)) % s.top = 0 + (s.top - 1) - (0 + (k - 1) - p) := by
            rw [Nat.mod_eq_of_lt (by omega)]
            omega
          rw [harg]
        · rw [if_pos (by omega)]
          rw [revLinLoop_spec (k - 1) 0 (k - 1) _ (by omega) (by omega)
            (k + (s.top - 1) - p) (by omega)]
          rw [if_neg (by omega)]
          rw [revLinLoop_spec (s.top - 1) 0 (s.top - 1) _ (by omega) (by omega)
            (k + (s.top - 1) - p) (by omega)]
          rw [if_pos (by omega)]
          rw [elemAt_take, if_pos (by omega)]
          have harg : (p + (s.top - k)) % s.top = 0 + (s.top - 1) - (k + (s.top - 1) - p) := by
            rw [mod_sub_of_window s.top _ (by omega) (by omega)]
            omega
          rw [harg]
      · intro p hp
        show elemAt (_ ++ s.data.drop s.top) p = _
        rw [elemAt_append, if_neg (by omega), hl3, elemAt_drop]
        rw [show s.top + (p - s.top) = p from by omega]
  · have hR : s.Rotate n = s := by
      unfold Rotate
      rw [if_pos (by omega)]
    rw [hR]
    refine ⟨rfl, ?_, fun p hp => rfl⟩
    intro p hp
    have hL1 : s.top = 1 := by omega
    have hp0 : p = 0 := by omega
    have hk1 : n % (s.top : Int) = 0 := by
      rw [hL1]
      exact_mod_cast Int.emod_one n
    have harg : (p + (s.top - (n % (s.top : Int)).toNat)) % s.top = p := by
      rw [hk1, hL1, hp0]
      rfl
    rw [harg]

end Stack

theorem rot_mod_cancel (T w k1 k2 : Nat) (hw : w < T) (hks : k1 + k2 = 0 ∨ k1 + k2 = T) :
    ((w + (T - k2)) % T + (T - k1)) % T = w := by
  rw [Nat.mod_add_mod]
  rcases hks with h | h
  · have h1 : w + (T - k2) + (T - k1) = w + 2 * T := by omega
    rw [h1, Nat.add_mul_mod_self_right, Nat.mod_eq_of_lt hw]
  · have h1 : w + (T - k2) + (T - k1) = w + T := by omega
    rw [h1, Nat.add_mod_right, Nat.mod_eq_of_lt hw]

namespace Stack

theorem Rotate_Rotate_neg_s (s : Stack α) (n : Int) (hts : s.top ≤ s.data.length) :
    (s.Rotate n).Rotate (-n) = s := by
  have htop1 : (s.Rotate n).top = s.top := Rotate_top s n
  have hdl1 : (s.Rotate n).data.length = s.data.length := (Rotate_spec_s s n hts).1
  apply eq_of_fields_s
  · by_cases hT0 : s.top = 0
    · have e1 : s.Rotate n = s := by
        unfold Rotate
        rw [if_pos (by omega)]
      have e2 : s.Rotate (-n) = s := by
        unfold Rotate
        rw [if_pos (by omega)]
      rw [e1, e2]
    · have hTpos : 0 < s.top := by omega
      have hL0i : (0 : Int) < (s.top : Int) := by omega
      have s1 := Rotate_spec_s s n hts
      have s2 := Rotate_spec_s (s.Rotate n) (-n) (by omega)
      rw [htop1, hdl1] at s2
      have hsum := emod_add_neg_emod n (s.top : Int) hL0i
      have hknn1 : 0 ≤ n % (s.top : Int) := Int.emod_nonneg n (by omega)
      have hknn2 : 0 ≤ (-n) % (s.top : Int) := Int.emod_nonneg (-n) (by omega)
      have hkb1 : n % (s.top : Int) < (s.top : Int) := Int.emod_lt_of_pos n hL0i
      have hkb2 : (-n) % (s.top : Int) < (s.top : Int) := Int.emod_lt_of_pos (-n) hL0i
      set k1 := (n % (s.top : Int)).toNat with hk1_def
      set k2 := ((-n) % (s.top : Int)).toNat with hk2_def
      have hks : k1 + k2 = 0 ∨ k1 + k2 = s.top := by omega
      apply List.ext_getElem (by rw [s2.1])
      intro i hi1 hi2
      rw [← elemAt_eq_getElem _ i hi1, ← elemAt_eq_getElem _ i hi2]
      by_cases hit : i < s.top
      · rw [s2.2.1 i hit]
        have harg : (i + (s.top - k2)) % s.top < s.top := Nat.mod_lt _ (by omega)
        rw [s1.2.1 _ harg]
        rw [rot_mod_cancel s.top i k1 k2 hit hks]
      · rw [s2.2.2 i (by omega), s1.2.2 i (by omega)]
  · rw [Rotate_top, Rotate_top]
  · rw [Rotate_initCap_s, Rotate_initCap_s]

theorem Rotate_top_self_s (s : Stack α) : s.Rotate (s.top : Int) = s := by
  by_cases h2 : 2 ≤ s.top
  · rw [Rotate_eq_s s _ h2, if_pos]
    rw [Int.emod_self]
    rfl
  · unfold Rotate
    rw [if_pos (by omega)]

theorem Rotate_emod_s (s : Stack α) (n : Int) :
    s.Rotate n = s.Rotate (n % (s.top : Int)) := by
  by_cases h2 : 2 ≤ s.top
  · rw [Rotate_eq_s s n h2, Rotate_eq_s s (n % (s.top : Int)) h2,
      Int.emod_emod_of_dvd n (dvd_refl _)]
  · unfold Rotate
    rw [if_pos (by omega), if_pos (by omega)]

end Stack

namespace Deque

theorem liveWindow_spec (q : Deque α) (hInv : q.Inv) (hL : 0 < q.length) :
    q.liveWindow.length = q.length ∧
    ∀ i, i < q.length → elemAt q.liveWindow i = elemAt q.data (pos q.cap q.front i) := by
  obtain ⟨h1, h2, h3, h4, h5, h6⟩ := hInv
  have hce : q.cap = q.data.length := rfl
  unfold liveWindow
  by_cases hfb : q.front < q.back
  · have h7 : q.back = q.front + q.length ∧ q.front + q.length ≤ q.cap := by
      rcases Nat.lt_or_ge (q.front + q.length) q.cap with hA | hA <;>
        rcases Nat.lt_or_ge q.back q.cap with hB | hB
      · rw [Nat.mod_eq_of_lt hA, Nat.mod_eq_of_lt hB] at h4
        omega
      · rw [Nat.mod_eq_of_lt hA, show q.back = q.cap from by omega, Nat.mod_self] at h4
        omega
      · rw [mod_sub_of_window _ _ hA (by omega), Nat.mod_eq_of_lt hB] at h4
        omega
      · rw [mod_sub_of_window _ _ hA (by omega), show q.back = q.cap from by omega,
          Nat.mod_self] at h4
        omega
    rw [if_pos hfb]
    constructor
    · rw [List.length_take, List.length_drop]
      omega
    · intro i hi
      rw [elemAt_take, if_pos (by omega), elemAt_drop]
      unfold pos
      rw [Nat.mod_eq_of_lt (by omega)]
  · have h7 : q.cap ≤ q.front + q.length ∧ q.back = q.front + q.length - q.cap := by
      rcases Nat.lt_or_ge (q.front + q.length) q.cap with hA | hA <;>
        rcases Nat.lt_or_ge q.back q.cap with hB | hB
      · rw [Nat.mod_eq_of_lt hA, Nat.mod_eq_of_lt hB] at h4
        omega
      · rw [Nat.mod_eq_of_lt hA, show q.back = q.cap from by omega, Nat.mod_self] at h4
        omega
      · rw [mod_sub_of_window _ _ hA (by omega), Nat.mod_eq_of_lt hB] at h4
        omega
      · rw [mod_sub_of_window _ _ hA (by omega), show q.back = q.cap from by omega,
          Nat.mod_self] at h4
        omega
    rw [if_neg hfb]
    constructor
    · rw [List.length_append, List.length_drop, List.length_take]
      omega
    · intro i hi
      rw [elemAt_append]
      simp only [List.length_drop]
      by_cases hi2 : i < q.data.length - q.front
      · rw [if_pos hi2, elemAt_drop]
        unfold pos
        rw [Nat.mod_eq_of_lt (by omega)]
      · rw [if_neg hi2, elemAt_take, if_pos (by omega)]
        unfold pos
        rw [mod_sub_of_window _ _ (by omega) (by omega)]
        congr 1
        omega

theorem internalResize_spec (q : Deque α) (newCap : Nat) (hInv : q.Inv) (hL : 0 < q.length)
    (hnc : q.length ≤ newCap) :
    (q.internalResize newCap).data.length = newCap ∧
    (q.internalResize newCap).front = 0 ∧
    (q.internalResize newCap).back = q.length ∧
    (q.internalResize newCap).length = q.length ∧
    (q.internalResize newCap).initCap = q.initCap ∧
    ∀ i, i < q.length →
      elemAt (q.internalResize newCap).data i = elemAt q.data (pos q.cap q.front i) := by
  obtain ⟨hw1, hw2⟩ := liveWindow_spec q hInv hL
  refine ⟨goMake_length _ _, rfl, rfl, rfl, rfl, ?_⟩
  intro i hi
  show elemAt (goMake newCap q.liveWindow) i = _
  rw [elemAt_goMake, if_pos (by omega)]
  exact hw2 i hi

theorem At_nonneg (q : Deque α) (i : Nat) (hi : i < q.length) :
    q.At i = some (elemAt q.data (pos q.cap q.front i)) := by
  unfold At
  dsimp only
  rw [if_neg (by omega : ¬((i : Int) < 0))]
  rw [if_neg (by omega : ¬(((i : Int) < 0) ∨ ((q.length : Int) ≤ (i : Int))))]
  simp only [Int.toNat_natCast]
  rfl

end Deque

namespace Stack

theorem At_nonneg_s (s : Stack α) (i : Nat) (hi : i < s.top) :
    s.At i = some (elemAt s.data (s.top - 1 - i)) := by
  unfold At
  dsimp only
  rw [if_neg (by omega : ¬((i : Int) < 0))]
  rw [if_neg (by omega : ¬(((i : Int) < 0) ∨ ((s.top : Int) ≤ (i : Int))))]
  simp only [Int.toNat_natCast]

end Stack

theorem swapIdx_self (l : List α) (p : Nat) : swapIdx l p p = l := by
  unfold swapIdx
  rw [set_elemAt_self, set_elemAt_self]

theorem set_append_length (xs : List α) (y v : α) (zs : List α) :
    (xs ++ y :: zs).set xs.length v = xs ++ v :: zs := by
  induction xs with
  | nil => rfl
  | cons x xs ih =>
    show x :: ((xs ++ y :: zs).set xs.length v) = x :: (xs ++ v :: zs)
    rw [ih]

theorem set_append_length_of (xs : List α) (y v : α) (zs : List α) (n : Nat)
    (hn : n = xs.length) : (xs ++ y :: zs).set n v = xs ++ v :: zs := by
  rw [hn, set_append_length]

/-- C4: pushing 1..5 at the back of an empty deque, `Rotate 2` gives the
front-to-back order 4,5,1,2,3 and a further `Rotate (-3)` gives 2,3,4,5,1 —
but only while the live window is dense. On `exDW`, a valid deque holding
the same values 1..5 whose live window wraps past the end of the backing
array (front 6, count 5, capacity 8), `reverseCircular` takes its modulus
from the Go `cap` of the slice (`2^30`, not the ring capacity), indexes
past the slice length and panics, so `Rotate 2` yields no state at all
instead of the claimed order. -/
theorem C4_rotate_wrapped_panics :
    ((exD5.Rotate 2).bind (fun d => d.At 0) = some 4 ∧
      (exD5.Rotate 2).bind (fun d => d.At 1) = some 5 ∧
      (exD5.Rotate 2).bind (fun d => d.At 2) = some 1 ∧
      (exD5.Rotate 2).bind (fun d => d.At 3) = some 2 ∧
      (exD5.Rotate 2).bind (fun d => d.At 4) = some 3) ∧
    (((exD5.Rotate 2).bind (fun d => d.Rotate (-3))).bind (fun d => d.At 0) = some 2 ∧
      ((exD5.Rotate 2).bind (fun d => d.Rotate (-3))).bind (fun d => d.At 1) = some 3 ∧
      ((exD5.Rotate 2).bind (fun d => d.Rotate (-3))).bind (fun d => d.At 2) = some 4 ∧
      ((exD5.Rotate 2).bind (fun d => d.Rotate (-3))).bind (fun d => d.At 3) = some 5 ∧
      ((exD5.Rotate 2).bind (fun d => d.Rotate (-3))).bind (fun d => d.At 4) = some 1) ∧
    (Deque.Inv exDW ∧
      exDW.At 0 = some 1 ∧ exDW.At 1 = some 2 ∧ exDW.At 2 = some 3 ∧
      exDW.At 3 = some 4 ∧ exDW.At 4 = some 5 ∧
      exDW.front = 6 ∧ exDW.Len = 5 ∧ exDW.Capacity = 8 ∧
      exDW.Capacity < exDW.front + exDW.Len) ∧
    exDW.Rotate 2 = none := by
  decide

/-- C6: on any non-empty deque and stack, `At (-1)` equals `At (count-1)`,
`At (-count)` equals `At 0`, and `At (-(count+1))` is absent. -/
theorem C6_negative_indexing (q : Deque α) (s : Stack α)
    (hq : 0 < q.length) (hs : 0 < s.top) :
    (q.At (-1) = q.At ((q.length : Int) - 1) ∧
      q.At (-(q.length : Int)) = q.At 0 ∧
      q.At (-((q.length : Int) + 1)) = none) ∧
    (s.At (-1) = s.At ((s.top : Int) - 1) ∧
      s.At (-(s.top : Int)) = s.At 0 ∧
      s.At (-((s.top : Int) + 1)) = none) := by
  constructor
  · refine ⟨?_, ?_, ?_⟩
    · unfold Deque.At
      dsimp only
      rw [if_pos (by omega : (-1 : Int) < 0),
        if_neg (by omega : ¬((q.length : Int) - 1 < 0)),
        if_neg (by omega : ¬(-1 + (q.length : Int) < 0 ∨ (q.length : Int) ≤ -1 + (q.length : Int))),
        if_neg (by omega : ¬((q.length : Int) - 1 < 0 ∨ (q.length : Int) ≤ (q.length : Int) - 1))]
      rw [show (-1 + (q.length : Int)).toNat = ((q.length : Int) - 1).toNat from by omega]
    · unfold Deque.At
      dsimp only
      rw [if_pos (by omega : -(q.length : Int) < 0),
        if_neg (by omega : ¬((0 : Int) < 0)),
        if_neg (by omega : ¬(-(q.length : Int) + (q.length : Int) < 0 ∨
          (q.length : Int) ≤ -(q.length : Int) + (q.length : Int))),
        if_neg (by omega : ¬((0 : Int) < 0 ∨ (q.length : Int) ≤ (0 : Int)))]
      rw [show (-(q.length : Int) + (q.length : Int)).toNat = ((0 : Int)).toNat from by omega]
    · unfold Deque.At
      dsimp only
      rw [if_pos (by omega : -((q.length : Int) + 1) < 0),
        if_pos (by omega : -((q.length : Int) + 1) + (q.length : Int) < 0 ∨
          (q.length : Int) ≤ -((q.length : Int) + 1) + (q.length : Int))]
  · refine ⟨?_, ?_, ?_⟩
    · unfold Stack.At
      dsimp only
      rw [if_pos (by omega : (-1 : Int) < 0),
        if_neg (by omega : ¬((s.top : Int) - 1 < 0)),
        if_neg (by omega : ¬(-1 + (s.top : Int) < 0 ∨ (s.top : Int) ≤ -1 + (s.top : Int))),
        if_neg (by omega : ¬((s.top : Int) - 1 < 0 ∨ (s.top : Int) ≤ (s.top : Int) - 1))]
      rw [show (-1 + (s.top : Int)).toNat = ((s.top : Int) - 1).toNat from by omega]
    · unfold Stack.At
      dsimp only
      rw [if_pos (by omega : -(s.top : Int) < 0),
        if_neg (by omega : ¬((0 : Int) < 0)),
        if_neg (by omega : ¬(-(s.top : Int) + (s.top : Int) < 0 ∨
          (s.top : Int) ≤ -(s.top : Int) + (s.top : Int))),
        if_neg (by omega : ¬((0 : Int) < 0 ∨ (s.top : Int) ≤ (0 : Int)))]
      rw [show (-(s.top : Int) + (s.top : Int)).toNat = ((0 : Int)).toNat from by omega]
    · unfold Stack.At
      dsimp only
      rw [if_pos (by omega : -((s.top : Int) + 1) < 0),
        if_pos (by omega : -((s.top : Int) + 1) + (s.top : Int) < 0 ∨
          (s.top : Int) ≤ -((s.top : Int) + 1) + (s.top : Int))]

theorem C6_negative_indexing_witness :
    (0 < exD5.length ∧ 0 < exS3.top) ∧
    (exD5.At (-1) = exD5.At ((exD5.length : Int) - 1) ∧
      exD5.At (-(exD5.length : Int)) = exD5.At 0 ∧
      exD5.At (-((exD5.length : Int) + 1)) = none) :=
  ⟨⟨by decide, by decide⟩, (C6_negative_indexing exD5 exS3 (by decide) (by decide)).1⟩

/-- C7: pops and peeks on an empty container give an absent result and leave
the state unchanged; indexed At/Set/Swap whose index resolves outside
`[0, count)` after negative-index resolution give a failure result and
leave the state unchanged. -/
theorem C7_failure_atomicity (q : Deque α) (s : Stack α) (i j : Int) (v : α) :
    (q.length = 0 →
      q.PopBack = (none, q) ∧ q.PopFront = (none, q) ∧ q.Front = none ∧ q.Back = none) ∧
    (s.top = 0 → s.Pop = (none, s) ∧ s.Top = none) ∧
    (((if i < 0 then i + (q.length : Int) else i) < 0 ∨
        (q.length : Int) ≤ (if i < 0 then i + (q.length : Int) else i)) →
      q.At i = none ∧ q.Set i v = (false, q) ∧
      q.Swap i j = (false, q) ∧ q.Swap j i = (false, q)) ∧
    (((if i < 0 then i + (s.top : Int) else i) < 0 ∨
        (s.top : Int) ≤ (if i < 0 then i + (s.top : Int) else i)) →
      s.At i = none ∧ s.Set i v = (false, s)) := by
  refine ⟨?_, ?_, ?_, ?_⟩
  · intro h
    unfold Deque.PopBack Deque.PopFront Deque.Front Deque.Back
    rw [if_pos h, if_pos h, if_pos h, if_pos h]
    exact ⟨rfl, rfl, rfl, rfl⟩
  · intro h
    unfold Stack.Pop Stack.Top
    rw [if_pos h, if_pos h]
    exact ⟨rfl, rfl⟩
  · intro h
    refine ⟨?_, ?_, ?_, ?_⟩
    · unfold Deque.At
      dsimp only
      rw [if_pos h]
    · unfold Deque.Set
      dsimp only
      rw [if_pos h]
    · unfold Deque.Swap
      by_cases hij : i = j
      · rw [if_pos hij]
      · rw [if_neg hij]
        dsimp only
        rw [if_pos (by rcases h with h | h
                       · exact Or.inl h
                       · exact Or.inr (Or.inl h))]
    · unfold Deque.Swap
      by_cases hij : j = i
      · rw [if_pos hij]
      · rw [if_neg hij]
        dsimp only
        rw [if_pos (by rcases h with h | h
                       · exact Or.inr (Or.inr (Or.inl h))
                       · exact Or.inr (Or.inr (Or.inr h)))]
  · intro h
    refine ⟨?_, ?_⟩
    · unfold Stack.At
      dsimp only
      rw [if_pos h]
    · unfold Stack.Set
      dsimp only
      rw [if_pos h]

theorem C7_failure_atomicity_witness :
    ((Deque.NewDeque 8 : Deque ℕ).length = 0 ∧
      (Deque.NewDeque 8 : Deque ℕ).PopBack = (none, Deque.NewDeque 8)) ∧
    (exD5.At 7 = none ∧ exD5.Set 7 0 = (false, exD5) ∧
      exD5.Swap 7 0 = (false, exD5) ∧ exD5.Swap 0 7 = (false, exD5)) :=
  ⟨⟨by decide,
    ((C7_failure_atomicity (Deque.NewDeque 8 : Deque ℕ) (Stack.NewStack 8 : Stack ℕ)
      7 0 0).1 (by decide)).1⟩,
    (C7_failure_atomicity exD5 exS3 7 0 0).2.2.1 (by decide)⟩

/-- C3 counterexample: on the deque 1..5, the raw indices 0 and -5 resolve
to the same position 0, yet `Swap 0 (-5)` returns the success result
`true` (the claim requires a failure result distinct from success). -/
theorem C3_counterexample :
    (if (-5 : Int) < 0 then -5 + (exD5.length : Int) else -5) = (0 : Int) ∧
    (exD5.Swap 0 (-5)).1 = true ∧ (exD5.Swap 0 (-5)).2 = exD5 := by
  decide

/-- C3 (amended): when two distinct raw indices resolve, after
negative-index resolution, to the same in-range position, `Swap` returns
the success result `true` and the deque is unchanged; the failure/no-op
result arises only for raw-equal indices (or out-of-range ones). -/
theorem C3_swap_same_slot (q : Deque α) (i j : Int) (hne : i ≠ j)
    (hres : (if i < 0 then i + (q.length : Int) else i) =
      (if j < 0 then j + (q.length : Int) else j))
    (hlo : 0 ≤ (if i < 0 then i + (q.length : Int) else i))
    (hhi : (if i < 0 then i + (q.length : Int) else i) < (q.length : Int)) :
    q.Swap i j = (true, q) ∧ q.Swap i i = (false, q) := by
  constructor
  · unfold Deque.Swap
    rw [if_neg hne]
    dsimp only
    rw [if_neg (by rw [← hres]; omega)]
    rw [hres, swapIdx_self]
  · unfold Deque.Swap
    rw [if_pos rfl]

theorem C3_swap_same_slot_witness :
    ((0 : Int) ≠ (-5 : Int) ∧
      (if (0 : Int) < 0 then 0 + (exD5.length : Int) else 0) =
        (if (-5 : Int) < 0 then -5 + (exD5.length : Int) else -5)) ∧
    exD5.Swap 0 (-5) = (true, exD5) :=
  ⟨⟨by decide, by decide⟩,
    (C3_swap_same_slot exD5 0 (-5) (by decide) (by decide) (by decide) (by decide)).1⟩

/-- C1 counterexample: a stack holding 3 elements with initial-capacity
floor 8 is trimmed to capacity 3, not max(count, initialCapacity) = 8. -/
theorem C1_counterexample :
    exS3.Length = 3 ∧ exS3.initCap = 8 ∧
    (exS3.TrimToSize).Capacity = 3 ∧
    ¬((exS3.TrimToSize).Capacity = max exS3.Length exS3.initCap) := by
  decide

/-- C1 (amended): `Deque.ShrinkToFit` behaves as the claim states (empty
resets capacity to exactly initCap; non-empty gives max(count, initCap)
with all elements preserved in order), but `Stack.TrimToSize` on a
non-empty stack sets capacity to exactly count, with no initial-capacity
floor; elements are preserved in both cases. -/
theorem C1_shrink_to_fit (q : Deque α) (s : Stack α) (hq : q.Inv) (hs : s.Inv) :
    (q.length = 0 → (q.ShrinkToFit).Capacity = q.initCap) ∧
    (0 < q.length →
      (q.ShrinkToFit).Capacity = max q.length q.initCap ∧
      (q.ShrinkToFit).Len = q.length ∧
      ∀ i : Nat, i < q.length → (q.ShrinkToFit).At i = q.At i) ∧
    (s.top = 0 → (s.TrimToSize).Capacity = s.initCap) ∧
    (0 < s.top →
      (s.TrimToSize).Capacity = s.top ∧
      (s.TrimToSize).Length = s.top ∧
      ∀ i : Nat, i < s.top → (s.TrimToSize).At i = s.At i) := by
  obtain ⟨hq1, hq2, hq3, hq4, hq5, hq6⟩ := hq
  obtain ⟨hs1, hs2⟩ := hs
  have hce : q.cap = q.data.length := rfl
  have hse : s.cap = s.data.length := rfl
  refine ⟨?_, ?_, ?_, ?_⟩
  · intro h0
    unfold Deque.ShrinkToFit
    rw [if_pos h0]
    unfold Deque.Init Deque.Capacity
    dsimp only
    rw [List.length_replicate]
    split <;> omega
  · intro hpos
    unfold Deque.ShrinkToFit
    rw [if_neg (by omega)]
    by_cases hfull : q.length = q.cap
    · rw [if_pos hfull]
      exact ⟨by show q.data.length = _; omega, rfl, fun i _ => rfl⟩
    · rw [if_neg hfull]
      have hN : (if q.length < q.initCap then q.initCap else q.length) =
          max q.length q.initCap := by
        split <;> omega
      have hspec := Deque.internalResize_spec q (if q.length < q.initCap then q.initCap
        else q.length) ⟨hq1, hq2, hq3, hq4, hq5, hq6⟩ hpos (by split <;> omega)
      obtain ⟨hr1, hr2, hr3, hr4, hr5, hr6⟩ := hspec
      refine ⟨by rw [show Deque.Capacity _ = _ from hr1, hN], hr4, ?_⟩
      intro i hi
      rw [Deque.At_nonneg _ i (by rw [hr4]; exact hi), Deque.At_nonneg q i hi]
      rw [hr2]
      have hposd : pos (Deque.cap (q.internalResize (if q.length < q.initCap then q.initCap
          else q.length))) 0 i = i := by
        unfold pos
        rw [Nat.zero_add]
        have : Deque.cap (q.internalResize (if q.length < q.initCap then q.initCap
          else q.length)) = (if q.length < q.initCap then q.initCap else q.length) := hr1
        rw [this, Nat.mod_eq_of_lt (by split <;> omega)]
      rw [hposd, hr6 i hi]
  · intro h0
    unfold Stack.TrimToSize
    rw [if_pos h0]
    show (goMake s.initCap (s.data.take s.top)).length = s.initCap
    exact goMake_length _ _
  · intro hpos
    unfold Stack.TrimToSize
    rw [if_neg (by omega)]
    by_cases htc : s.top < s.cap
    · rw [if_pos htc]
      refine ⟨?_, rfl, ?_⟩
      · show (goMake s.top (s.data.take s.top)).length = s.top
        exact goMake_length _ _
      · intro i hi
        rw [Stack.At_nonneg_s (s.internalResize s.top) i (by show i < s.top; exact hi),
          Stack.At_nonneg_s s i hi]
        show some (elemAt (goMake s.top (s.data.take s.top)) (s.top - 1 - i)) = _
        rw [elemAt_goMake, if_pos (by rw [List.length_take]; omega),
          elemAt_take, if_pos (by omega)]
    · rw [if_neg htc]
      exact ⟨by show s.data.length = _; omega, rfl, fun i _ => rfl⟩

theorem C1_shrink_to_fit_witness :
    (Deque.Inv exD5 ∧ Stack.Inv exS3 ∧ 0 < exD5.length) ∧
    ((exD5.ShrinkToFit).Capacity = max exD5.length exD5.initCap ∧
      (exD5.ShrinkToFit).Len = exD5.length ∧
      ∀ i : Nat, i < exD5.length → (exD5.ShrinkToFit).At i = exD5.At i) :=
  ⟨⟨by decide, by decide, by decide⟩,
    (C1_shrink_to_fit exD5 exS3 (by decide) (by decide)).2.1 (by decide)⟩

/-- C2 counterexample: copying the 5-element deque of capacity 8 yields a
deque whose backing capacity is 5, strictly below the source's capacity 8
(the claim requires capacity at least the source's). -/
theorem C2_counterexample :
    exD5.Capacity = 8 ∧ (exD5.Copy).Capacity = 5 ∧
    ¬(exD5.Capacity ≤ (exD5.Copy).Capacity) := by
  decide

/-- C2 (amended): `Copy` returns a container of the same length whose
elements, read front-to-back (top-down for the stack), equal the source's,
stored densely from offset 0 with front = 0 and back = count; however its
backing capacity equals the source's count when the source is non-empty
(it equals the source's capacity only for an empty deque source, and is 0
for an empty stack source). -/
theorem C2_copy_semantics (q : Deque α) (s : Stack α) (hq : q.Inv) (hs : s.Inv) :
    ((q.Copy).Len = q.length ∧ (q.Copy).front = 0 ∧
      (0 < q.length → (q.Copy).back = q.length ∧ (q.Copy).Capacity = q.length) ∧
      (q.length = 0 → (q.Copy).Capacity = q.Capacity) ∧
      (∀ i : Nat, i < q.length → (q.Copy).At i = q.At i)) ∧
    ((s.Copy).Length = s.top ∧ (s.Copy).Capacity = s.top ∧
      (∀ i : Nat, i < s.top → (s.Copy).At i = s.At i)) := by
  obtain ⟨hq1, hq2, hq3, hq4, hq5, hq6⟩ := hq
  obtain ⟨hs1, hs2⟩ := hs
  have hce : q.cap = q.data.length := rfl
  have hse : s.cap = s.data.length := rfl
  constructor
  · by_cases h0 : q.length = 0
    · have hcopy : q.Copy = Deque.NewDeque q.Capacity := by
        unfold Deque.Copy
        rw [if_pos h0]
      have hnd : (Deque.NewDeque q.Capacity : Deque α) =
          ⟨List.replicate q.data.length default, 0, 0, 0, q.data.length⟩ := by
        unfold Deque.NewDeque Deque.Init Deque.Capacity
        dsimp only
        rw [if_pos (by omega : 0 < q.data.length)]
        rw [show (if q.data.length > 8 then q.data.length else 8) = q.data.length from by
          split <;> omega]
      rw [hcopy, hnd]
      refine ⟨?_, rfl, ?_, ?_, ?_⟩
      · show (0 : Nat) = q.length
        omega
      · intro hpos
        exact absurd h0 (by omega)
      · intro _
        show (List.replicate q.data.length (default : α)).length = q.Capacity
        rw [List.length_replicate]
        rfl
      · intro i hi
        exact absurd hi (by omega)
    · have hcopy : q.Copy =
          { data := goMake q.length q.liveWindow, front := 0, back := q.length,
            length := q.length,
            initCap := (Deque.NewDeque q.Capacity : Deque α).initCap } := by
        unfold Deque.Copy
        rw [if_neg h0]
      obtain ⟨hw1, hw2⟩ := Deque.liveWindow_spec q ⟨hq1, hq2, hq3, hq4, hq5, hq6⟩ (by omega)
      rw [hcopy]
      refine ⟨rfl, rfl, fun _ => ⟨rfl, ?_⟩, fun h => absurd h h0, ?_⟩
      · show (goMake q.length q.liveWindow).length = _
        exact goMake_length _ _
      · intro i hi
        rw [Deque.At_nonneg q i hi]
        rw [Deque.At_nonneg
          { data := goMake q.length q.liveWindow, front := 0, back := q.length,
            length := q.length,
            initCap := (Deque.NewDeque q.Capacity : Deque α).initCap } i hi]
        show some (elemAt (goMake q.length q.liveWindow)
          (pos (goMake q.length q.liveWindow).length 0 i)) = _
        have hgl : (goMake q.length q.liveWindow).length = q.length := goMake_length _ _
        rw [hgl]
        unfold pos
        rw [Nat.zero_add, Nat.mod_eq_of_lt hi]
        rw [elemAt_goMake, if_pos (by omega)]
        rw [hw2 i hi]
        rfl
  · refine ⟨rfl, ?_, ?_⟩
    · show (goMake s.top (s.data.take s.top)).length = s.top
      exact goMake_length _ _
    · intro i hi
      rw [Stack.At_nonneg_s (s.Copy) i (by show i < s.top; exact hi),
        Stack.At_nonneg_s s i hi]
      show some (elemAt (goMake s.top (s.data.take s.top)) (s.top - 1 - i)) = _
      rw [elemAt_goMake, if_pos (by rw [List.length_take]; omega),
        elemAt_take, if_pos (by omega)]

theorem C2_copy_semantics_witness :
    (Deque.Inv exD5 ∧ Stack.Inv exS3) ∧
    ((exD5.Copy).Len = exD5.length ∧ (exD5.Copy).front = 0 ∧
      (0 < exD5.length → (exD5.Copy).back = exD5.length ∧ (exD5.Copy).Capacity = exD5.length) ∧
      (exD5.length = 0 → (exD5.Copy).Capacity = exD5.Capacity) ∧
      (∀ i : Nat, i < exD5.length → (exD5.Copy).At i = exD5.At i)) :=
  ⟨⟨by decide, by decide⟩, (C2_copy_semantics exD5 exS3 (by decide) (by decide)).1⟩

/-- C10: `Resize c` on a stack holding more than `c` elements sets both the
length and the capacity to exactly `c` (no floor of 8 applies); the
surviving backing slots `0..c-1` are the `c` least-recently-pushed elements
unchanged, and reading top-down, `At i` on the result equals
`At (i + (top - c))` on the source (the `top - c` most recent elements are
discarded). -/
theorem C10_stack_resize (s : Stack α) (c : Nat) (hs : s.Inv) (hc : c < s.top) :
    (s.Resize c).Length = c ∧ (s.Resize c).Capacity = c ∧
    (∀ i : Nat, i < c → elemAt (s.Resize c).data i = elemAt s.data i) ∧
    (∀ i : Nat, i < c → (s.Resize c).At i = s.At ((i + (s.top - c) : Nat) : Int)) := by
  obtain ⟨hs1, hs2⟩ := hs
  have hse : s.cap = s.data.length := rfl
  have hres : s.Resize c = Stack.internalResize { s with top := c } c := by
    unfold Stack.Resize
    rw [if_pos hc]
  have hdat : (s.Resize c).data = goMake c (s.data.take c) := by
    rw [hres]
    rfl
  have htop : (s.Resize c).top = c := by
    rw [hres]
    rfl
  have hel : ∀ i : Nat, i < c → elemAt (s.Resize c).data i = elemAt s.data i := by
    intro i hi
    rw [hdat, elemAt_goMake, if_pos (by rw [List.length_take]; omega),
      elemAt_take, if_pos (by omega)]
  refine ⟨htop, ?_, hel, ?_⟩
  · show (s.Resize c).data.length = c
    rw [hdat]
    exact goMake_length _ _
  · intro i hi
    have h1 := Stack.At_nonneg_s (s.Resize c) i (by rw [htop]; exact hi)
    rw [htop] at h1
    rw [h1, Stack.At_nonneg_s s (i + (s.top - c)) (by omega)]
    rw [hel (c - 1 - i) (by omega)]
    rw [show s.top - 1 - (i + (s.top - c)) = c - 1 - i from by omega]

theorem C10_stack_resize_witness :
    (Stack.Inv exS5 ∧ 3 < exS5.top) ∧
    ((exS5.Resize 3).Length = 3 ∧ (exS5.Resize 3).Capacity = 3 ∧
      (∀ i : Nat, i < 3 → elemAt (exS5.Resize 3).data i = elemAt exS5.data i) ∧
      (∀ i : Nat, i < 3 → (exS5.Resize 3).At i = exS5.At ((i + (exS5.top - 3) : Nat) : Int))) :=
  ⟨⟨by decide, by decide⟩, C10_stack_resize exS5 3 (by decide) (by decide)⟩

theorem pushBackAll_fresh (m : Nat) (hm : 8 ≤ m) :
    ∀ (vs : List α), vs.length ≤ m →
      (Deque.Init m : Deque α).pushBackAll vs =
        ⟨vs ++ List.replicate (m - vs.length) default, 0, vs.length % m, vs.length, m⟩ := by
  intro vs
  induction vs using List.reverseRecOn with
  | nil =>
    intro h
    unfold Deque.pushBackAll Deque.Init
    dsimp only
    rw [List.foldl_nil]
    rw [show (if m > 8 then m else 8) = m from by split <;> omega]
    simp
  | append_singleton ws v ih =>
    intro h
    have hws : ws.length < m := by
      rw [List.length_append, List.length_singleton] at h
      omega
    unfold Deque.pushBackAll at ih ⊢
    rw [List.foldl_append, List.foldl_cons, List.foldl_nil, ih (by omega)]
    have hcap : (Deque.mk (ws ++ List.replicate (m - ws.length) default) 0 (ws.length % m)
        ws.length m : Deque α).cap = m := by
      show (ws ++ List.replicate (m - ws.length) (default : α)).length = m
      rw [List.length_append, List.length_replicate]
      omega
    unfold Deque.PushBack
    rw [if_pos (by rw [hcap]; show ws.length < m; omega)]
    apply Deque.eq_of_fields
    · show (ws ++ List.replicate (m - ws.length) default).set (ws.length % m) v =
        (ws ++ [v]) ++ List.replicate (m - (ws ++ [v]).length) (default : α)
      rw [Nat.mod_eq_of_lt hws]
      rw [show m - ws.length = (m - ws.length - 1) + 1 from by omega, List.replicate_succ]
      rw [set_append_length]
      rw [List.append_assoc, List.singleton_append]
      rw [List.length_append, List.length_singleton]
      rw [show m - (ws.length + 1) = m - ws.length - 1 from by omega]
    · rfl
    · show (ws.length % m + 1) % (Deque.mk (ws ++ List.replicate (m - ws.length) default) 0
        (ws.length % m) ws.length m : Deque α).cap = (ws ++ [v]).length % m
      rw [hcap, Nat.mod_eq_of_lt hws, List.length_append, List.length_singleton]
    · show ws.length + 1 = (ws ++ [v]).length
      rw [List.length_append, List.length_singleton]
    · rfl

theorem pushBackAll_grow (m : Nat) (hm : 8 ≤ m) (vs : List α) (hv : vs.length = m + 1) :
    ((Deque.Init m : Deque α).pushBackAll vs).Capacity = 2 * m ∧
    ((Deque.Init m : Deque α).pushBackAll vs).Len = m + 1 ∧
    ∀ i : Nat, i < vs.length →
      ((Deque.Init m : Deque α).pushBackAll vs).At i = some (elemAt vs i) := by
  rcases List.eq_nil_or_concat vs with h | ⟨ws, v, rfl⟩
  · rw [h] at hv
    simp at hv
  · simp only [List.concat_eq_append] at hv ⊢
    have hws : ws.length = m := by
      rw [List.length_append, List.length_singleton] at hv
      omega
    have hfold : (Deque.Init m : Deque α).pushBackAll (ws ++ [v]) =
        Deque.PushBack ((Deque.Init m : Deque α).pushBackAll ws) v := by
      unfold Deque.pushBackAll
      rw [List.foldl_append, List.foldl_cons, List.foldl_nil]
    have hfull := pushBackAll_fresh m hm ws (by omega)
    rw [hfold, hfull, hws]
    rw [show m - m = 0 from by omega, List.replicate_zero, List.append_nil]
    have hS : (Deque.mk ws 0 (m % m) m m : Deque α) =
        (Deque.mk ws 0 0 m m : Deque α) := by
      rw [Nat.mod_self]
    rw [hS]
    have hScap : (Deque.mk ws 0 0 m m : Deque α).cap = m := by
      show ws.length = m
      exact hws
    have hfinal : Deque.PushBack (Deque.mk ws 0 0 m m : Deque α) v =
        ⟨ws ++ v :: List.replicate (m - 1) default, 0, m + 1, m + 1, m⟩ := by
      unfold Deque.PushBack
      rw [if_neg (by rw [hScap]; show ¬(m < m); omega)]
      have hwin : (Deque.mk ws 0 0 m m : Deque α).liveWindow = ws := by
        unfold Deque.liveWindow
        dsimp only
        rw [if_neg (by omega)]
        rw [List.drop_zero, List.take_zero, List.append_nil]
      have hnc : ((Deque.mk ws 0 0 m m : Deque α).cap * 2 = 0) = False := by
        rw [hScap]
        simp
        omega
      dsimp only
      rw [hScap, if_neg (by omega : ¬(m * 2 = 0))]
      unfold Deque.internalResize
      rw [hwin]
      dsimp only
      rw [goMake_of_le (m * 2) ws (by omega)]
      rw [show m * 2 - ws.length = (m - 1) + 1 from by omega, List.replicate_succ]
      apply Deque.eq_of_fields
      · show (ws ++ default :: List.replicate (m - 1) default).set m v = _
        rw [set_append_length_of ws default v (List.replicate (m - 1) default) m hws.symm]
      · rfl
      · show (m + 1) % (ws ++ default :: List.replicate (m - 1) default : List α).length = m + 1
        rw [List.length_append, List.length_cons, List.length_replicate]
        rw [Nat.mod_eq_of_lt (by omega)]
      · rfl
      · rfl
    rw [hfinal]
    refine ⟨?_, rfl, ?_⟩
    · show (ws ++ v :: List.replicate (m - 1) (default : α)).length = 2 * m
      rw [List.length_append, List.length_cons, List.length_replicate]
      omega
    · intro i hi
      rw [List.length_append, List.length_singleton, hws] at hi
      have hlen : (Deque.mk (ws ++ v :: List.replicate (m - 1) default) 0 (m + 1) (m + 1) m
          : Deque α).length = m + 1 := rfl
      rw [Deque.At_nonneg _ i (by rw [hlen]; omega)]
      have hcap2 : (Deque.mk (ws ++ v :: List.replicate (m - 1) default) 0 (m + 1) (m + 1) m
          : Deque α).cap = 2 * m := by
        show (ws ++ v :: List.replicate (m - 1) (default : α)).length = 2 * m
        rw [List.length_append, List.length_cons, List.length_replicate]
        omega
      rw [hcap2]
      unfold pos
      rw [Nat.zero_add, Nat.mod_eq_of_lt (by omega)]
      show some (elemAt (ws ++ v :: List.replicate (m - 1) default) i) = _
      rw [elemAt_append, elemAt_append]
      by_cases hiw : i < ws.length
      · rw [if_pos hiw, if_pos hiw]
      · rw [if_neg hiw, if_neg hiw]
        have hieq : i - ws.length = 0 := by omega
        rw [hieq]
        rfl

theorem pushAll_fresh_s (m : Nat) (hm : 8 ≤ m) :
    ∀ (vs : List α), vs.length ≤ m →
      (Stack.Init m : Stack α).pushAll vs =
        ⟨vs ++ List.replicate (m - vs.length) default, vs.length, m⟩ := by
  intro vs
  induction vs using List.reverseRecOn with
  | nil =>
    intro h
    unfold Stack.pushAll Stack.Init
    dsimp only
    rw [List.foldl_nil]
    rw [show (if m > 8 then m else 8) = m from by split <;> omega]
    simp
  | append_singleton ws v ih =>
    intro h
    have hws : ws.length < m := by
      rw [List.length_append, List.length_singleton] at h
      omega
    unfold Stack.pushAll at ih ⊢
    rw [List.foldl_append, List.foldl_cons, List.foldl_nil, ih (by omega)]
    have hcap : (Stack.mk (ws ++ List.replicate (m - ws.length) default) ws.length m
        : Stack α).cap = m := by
      show (ws ++ List.replicate (m - ws.length) (default : α)).length = m
      rw [List.length_append, List.length_replicate]
      omega
    unfold Stack.Push
    rw [if_pos (by rw [hcap]; show ws.length < m; omega)]
    apply Stack.eq_of_fields_s
    · show (ws ++ List.replicate (m - ws.length) default).set ws.length v =
        (ws ++ [v]) ++ List.replicate (m - (ws ++ [v]).length) (default : α)
      rw [show m - ws.length = (m - ws.length - 1) + 1 from by omega, List.replicate_succ]
      rw [set_append_length]
      rw [List.append_assoc, List.singleton_append]
      rw [List.length_append, List.length_singleton]
      rw [show m - (ws.length + 1) = m - ws.length - 1 from by omega]
    · show ws.length + 1 = (ws ++ [v]).length
      rw [List.length_append, List.length_singleton]
    · rfl

theorem pushAll_grow_s (m : Nat) (hm : 8 ≤ m) (vs : List α) (hv : vs.length = m + 1) :
    ((Stack.Init m : Stack α).pushAll vs).Capacity = 2 * m ∧
    ((Stack.Init m : Stack α).pushAll vs).Length = m + 1 ∧
    ∀ i : Nat, i < vs.length →
      ((Stack.Init m : Stack α).pushAll vs).At i = some (elemAt vs (vs.length - 1 - i)) := by
  rcases List.eq_nil_or_concat vs with h | ⟨ws, v, rfl⟩
  · rw [h] at hv
    simp at hv
  · simp only [List.concat_eq_append] at hv ⊢
    have hws : ws.length = m := by
      rw [List.length_append, List.length_singleton] at hv
      omega
    have hfold : (Stack.Init m : Stack α).pushAll (ws ++ [v]) =
        Stack.Push ((Stack.Init m : Stack α).pushAll ws) v := by
      unfold Stack.pushAll
      rw [List.foldl_append, List.foldl_cons, List.foldl_nil]
    have hfull := pushAll_fresh_s m hm ws (by omega)
    rw [hfold, hfull, hws]
    rw [show m - m = 0 from by omega, List.replicate_zero, List.append_nil]
    have hScap : (Stack.mk ws m m : Stack α).cap = m := hws
    have hfinal : Stack.Push (Stack.mk ws m m : Stack α) v =
        ⟨ws ++ v :: List.replicate (m - 1) default, m + 1, m⟩ := by
      unfold Stack.Push
      rw [if_neg (by rw [hScap]; show ¬(m < m); omega)]
      dsimp only
      rw [hScap, if_neg (by omega : ¬(m * 2 = 0))]
      unfold Stack.internalResize
      dsimp only
      rw [show List.take m ws = ws from by rw [← hws, List.take_length]]
      rw [goMake_of_le (m * 2) ws (by omega)]
      rw [show m * 2 - ws.length = (m - 1) + 1 from by omega, List.replicate_succ]
      apply Stack.eq_of_fields_s
      · show (ws ++ default :: List.replicate (m - 1) default).set m v = _
        rw [set_append_length_of ws default v (List.replicate (m - 1) default) m hws.symm]
      · rfl
      · rfl
    rw [hfinal]
    refine ⟨?_, rfl, ?_⟩
    · show (ws ++ v :: List.replicate (m - 1) (default : α)).length = 2 * m
      rw [List.length_append, List.length_cons, List.length_replicate]
      omega
    · intro i hi
      rw [List.length_append, List.length_singleton, hws] at hi
      rw [Stack.At_nonneg_s _ i (by show i < m + 1; omega)]
      show some (elemAt (ws ++ v :: List.replicate (m - 1) default) (m + 1 - 1 - i)) = _
      rw [List.length_append, List.length_singleton, hws]
      rw [elemAt_append, elemAt_append]
      rw [hws]
      by_cases hiw : m + 1 - 1 - i < m
      · rw [if_pos hiw, if_pos (by omega)]
      · rw [if_neg hiw, if_neg (by omega),
          show m + 1 - 1 - i - m = 0 from by omega]
        rfl

theorem Init_initCap_deque (n : Nat) :
    (Deque.Init n : Deque α) = Deque.Init ((Deque.Init n : Deque α).initCap) ∧
    8 ≤ (Deque.Init n : Deque α).initCap := by
  unfold Deque.Init
  dsimp only
  constructor
  · by_cases h : n > 8
    · rw [if_pos h, if_pos h]
    · rw [if_neg h]
      simp
  · split <;> omega

theorem Init_initCap_stack (n : Nat) :
    (Stack.Init n : Stack α) = Stack.Init ((Stack.Init n : Stack α).initCap) ∧
    8 ≤ (Stack.Init n : Stack α).initCap := by
  unfold Stack.Init
  dsimp only
  constructor
  · by_cases h : n > 8
    · rw [if_pos h, if_pos h]
    · rw [if_neg h]
      simp
  · split <;> omega

/-- C8: for any fresh deque or stack, pushing `initialCapacity + 1` values
makes the capacity strictly larger than `initialCapacity` (it doubles), and
every pushed value is still retrievable through `At` at its index: for the
deque, `At i` is the i-th pushed value; for the stack, `At i` (top-down) is
the value pushed `i` positions before the last one. -/
theorem C8_capacity_growth (c : Nat) (vs ws : List α)
    (hv : vs.length = (Deque.NewDeque c : Deque α).initCap + 1)
    (hw : ws.length = (Stack.NewStack c : Stack α).initCap + 1) :
    ((Deque.NewDeque c : Deque α).initCap <
        ((Deque.NewDeque c : Deque α).pushBackAll vs).Capacity ∧
      ∀ i : Nat, i < vs.length →
        ((Deque.NewDeque c : Deque α).pushBackAll vs).At i = some (elemAt vs i)) ∧
    ((Stack.NewStack c : Stack α).initCap <
        ((Stack.NewStack c : Stack α).pushAll ws).Capacity ∧
      ∀ i : Nat, i < ws.length →
        ((Stack.NewStack c : Stack α).pushAll ws).At i =
          some (elemAt ws (ws.length - 1 - i))) := by
  constructor
  · have hEq : (Deque.NewDeque c : Deque α) =
        Deque.Init ((Deque.NewDeque c : Deque α).initCap) :=
      (Init_initCap_deque (if 0 < c then c else 8)).1
    have h8 : 8 ≤ (Deque.NewDeque c : Deque α).initCap :=
      (Init_initCap_deque (if 0 < c then c else 8)).2
    set M := (Deque.NewDeque c : Deque α).initCap with hMdef
    rw [hEq]
    obtain ⟨hg1, hg2, hg3⟩ := pushBackAll_grow M h8 vs hv
    exact ⟨by rw [hg1]; omega, hg3⟩
  · have hEq : (Stack.NewStack c : Stack α) =
        Stack.Init ((Stack.NewStack c : Stack α).initCap) :=
      (Init_initCap_stack (if 0 < c then c else 8)).1
    have h8 : 8 ≤ (Stack.NewStack c : Stack α).initCap :=
      (Init_initCap_stack (if 0 < c then c else 8)).2
    set M := (Stack.NewStack c : Stack α).initCap with hMdef
    rw [hEq]
    obtain ⟨hg1, hg2, hg3⟩ := pushAll_grow_s M h8 ws hw
    exact ⟨by rw [hg1]; omega, hg3⟩

theorem C8_capacity_growth_witness :
    ((List.range 9).length = (Deque.NewDeque 0 : Deque ℕ).initCap + 1 ∧
      (List.range 9).length = (Stack.NewStack 0 : Stack ℕ).initCap + 1) ∧
    ((Deque.NewDeque 0 : Deque ℕ).initCap <
        ((Deque.NewDeque 0 : Deque ℕ).pushBackAll (List.range 9)).Capacity ∧
      ∀ i : Nat, i < (List.range 9).length →
        ((Deque.NewDeque 0 : Deque ℕ).pushBackAll (List.range 9)).At i =
          some (elemAt (List.range 9) i)) :=
  ⟨⟨by decide, by decide⟩,
    (C8_capacity_growth 0 (List.range 9) (List.range 9) (by decide) (by decide)).1⟩

/-- C5: the rotation laws hold on the stack and on dense deque windows,
but not for every container state: `exDW` is a valid deque state whose
live window wraps past the end of the backing array, and there `Rotate 2`
panics (`reverseCircular` takes its modulus from the Go slice `cap`,
`2^30`, so it indexes past the slice length), yielding no state at all, so
`Rotate 2` followed by `Rotate (-2)` cannot restore the original order. -/
theorem C5_rotate_panics_on_wrap :
    (Deque.Inv exDW ∧ exDW.Capacity < exDW.front + exDW.Len ∧
      exDW.Rotate 2 = none) ∧
    ((exD5.Rotate 2).bind (fun d => d.Rotate (-2)) = some exD5 ∧
      exD5.Rotate (exD5.Len : Int) = some exD5 ∧
      exD5.Rotate 7 = exD5.Rotate (7 % (exD5.Len : Int))) ∧
    ((exS5.Rotate 7).Rotate (-7) = exS5 ∧
      exS5.Rotate (exS5.Length : Int) = exS5 ∧
      exS5.Rotate 7 = exS5.Rotate (7 % (exS5.Length : Int))) := by
  refine ⟨by decide, by decide, ?_⟩
  exact ⟨Stack.Rotate_Rotate_neg_s exS5 7 (by decide), Stack.Rotate_top_self_s exS5,
    Stack.Rotate_emod_s exS5 7⟩

namespace Deque

theorem Inv_Init (n : Nat) : (Deque.Init n : Deque α).Inv := by
  unfold Init Inv cap
  dsimp only
  rw [List.length_replicate]
  refine ⟨by omega, by split <;> omega, by omega, rfl, by split <;> omega, by omega⟩

theorem Inv_Clear (q : Deque α) (hq : q.Inv) : q.Clear.Inv := by
  obtain ⟨h1, h2, h3, h4, h5, h6⟩ := hq
  have hce : q.cap = q.data.length := rfl
  exact ⟨by show (0 : Nat) ≤ q.data.length; omega,
    by show (0 : Nat) < q.data.length; omega,
    by show (0 : Nat) ≤ q.data.length; omega,
    rfl, h5, h6⟩

theorem Inv_internalResize (q : Deque α) (newCap : Nat) (hq : q.Inv)
    (hlen : q.length ≤ newCap) (hic : q.initCap ≤ newCap) :
    (q.internalResize newCap).Inv := by
  obtain ⟨h1, h2, h3, h4, h5, h6⟩ := hq
  have hg : (q.internalResize newCap).cap = newCap := goMake_length _ _
  refine ⟨?_, ?_, ?_, ?_, h5, ?_⟩
  · show q.length ≤ (q.internalResize newCap).cap
    omega
  · show (0 : Nat) < (q.internalResize newCap).cap
    omega
  · show q.length ≤ (q.internalResize newCap).cap
    omega
  · show q.length % (q.internalResize newCap).cap =
      (0 + q.length) % (q.internalResize newCap).cap
    rw [Nat.zero_add]
  · show q.initCap ≤ (q.internalResize newCap).cap
    omega

theorem Inv_PushBack (q : Deque α) (v : α) (hq : q.Inv) : (q.PushBack v).Inv := by
  obtain ⟨h1, h2, h3, h4, h5, h6⟩ := hq
  have hce : q.cap = q.data.length := rfl
  unfold PushBack
  by_cases hfull : q.length < q.cap
  · rw [if_pos hfull]
    have hls : (q.data.set q.back v).length = q.data.length := List.length_set q.data _ _
    refine ⟨?_, ?_, ?_, ?_, h5, ?_⟩
    · show q.length + 1 ≤ (q.data.set q.back v).length
      omega
    · show q.front < (q.data.set q.back v).length
      omega
    · show (q.back + 1) % q.cap ≤ (q.data.set q.back v).length
      have := Nat.mod_lt (q.back + 1) (show 0 < q.cap from by omega)
      omega
    · show ((q.back + 1) % q.cap) % (q.data.set q.back v).length =
        (q.front + (q.length + 1)) % (q.data.set q.back v).length
      rw [hls, ← hce, Nat.mod_mod_of_dvd _ (dvd_refl _), ← Nat.mod_add_mod, h4,
        Nat.mod_add_mod, ← Nat.add_assoc]
    · show q.initCap ≤ (q.data.set q.back v).length
      omega
  · rw [if_neg hfull]
    dsimp only
    rw [if_neg (by omega : ¬(q.cap * 2 = 0))]
    set R := q.internalResize (q.cap * 2) with hRdef
    have hrc : R.cap = q.cap * 2 := goMake_length _ _
    have hrb : R.back = q.length := rfl
    have hrl : R.length = q.length := rfl
    have hrf : R.front = 0 := rfl
    have hri : R.initCap = q.initCap := rfl
    have hls : (R.data.set R.back v).length = R.cap := List.length_set _ _ _
    refine ⟨?_, ?_, ?_, ?_, ?_, ?_⟩
    · show R.length + 1 ≤ (R.data.set R.back v).length
      rw [hls, hrc, hrl]
      omega
    · show R.front < (R.data.set R.back v).length
      rw [hls, hrc, hrf]
      omega
    · show (R.back + 1) % R.cap ≤ (R.data.set R.back v).length
      rw [hls]
      have := Nat.mod_lt (R.back + 1) (show 0 < R.cap from by rw [hrc]; omega)
      omega
    · show ((R.back + 1) % R.cap) % (R.data.set R.back v).length =
        (R.front + (R.length + 1)) % (R.data.set R.back v).length
      rw [hls, Nat.mod_mod_of_dvd _ (dvd_refl _), hrb, hrl, hrf, Nat.zero_add]
    · show 8 ≤ R.initCap
      rw [hri]
      omega
    · show R.initCap ≤ (R.data.set R.back v).length
      rw [hls, hrc, hri]
      omega

theorem Inv_PushFront (q : Deque α) (v : α) (hq : q.Inv) : (q.PushFront v).Inv := by
  obtain ⟨h1, h2, h3, h4, h5, h6⟩ := hq
  have hce : q.cap = q.data.length := rfl
  unfold PushFront
  by_cases hfull : q.length = q.cap
  · rw [if_pos hfull]
    dsimp only
    rw [if_neg (by omega : ¬(q.cap * 2 = 0))]
    set R := q.internalResize (q.cap * 2) with hRdef
    have hrc : R.cap = q.cap * 2 := goMake_length _ _
    have hrb : R.back = q.length := rfl
    have hrl : R.length = q.length := rfl
    have hrf : R.front = 0 := rfl
    have hri : R.initCap = q.initCap := rfl
    have hls : ∀ p, (R.data.set p v).length = R.cap := fun p => List.length_set _ _ _
    have hcp : 0 < R.cap := by rw [hrc]; omega
    refine ⟨?_, ?_, ?_, ?_, ?_, ?_⟩
    · show R.length + 1 ≤ (R.data.set ((R.front + R.cap - 1) % R.cap) v).length
      rw [hls, hrc, hrl]
      omega
    · show (R.front + R.cap - 1) % R.cap <
        (R.data.set ((R.front + R.cap - 1) % R.cap) v).length
      rw [hls]
      exact Nat.mod_lt _ hcp
    · show R.back ≤ (R.data.set ((R.front + R.cap - 1) % R.cap) v).length
      rw [hls, hrc, hrb]
      omega
    · show R.back % (R.data.set ((R.front + R.cap - 1) % R.cap) v).length =
        ((R.front + R.cap - 1) % R.cap + (R.length + 1)) %
          (R.data.set ((R.front + R.cap - 1) % R.cap) v).length
      rw [hls, Nat.mod_add_mod, hrb, hrl, hrf,
        show 0 + R.cap - 1 + (q.length + 1) = q.length + R.cap from by omega,
        Nat.add_mod_right]
    · show 8 ≤ R.initCap
      rw [hri]
      omega
    · show R.initCap ≤ (R.data.set ((R.front + R.cap - 1) % R.cap) v).length
      rw [hls, hrc, hri]
      omega
  · rw [if_neg hfull]
    dsimp only
    have hls : ∀ p, (q.data.set p v).length = q.cap := fun p => List.length_set _ _ _
    have hcp : 0 < q.cap := by omega
    refine ⟨?_, ?_, ?_, ?_, h5, ?_⟩
    · show q.length + 1 ≤ (q.data.set ((q.front + q.cap - 1) % q.cap) v).length
      rw [hls]
      omega
    · show (q.front + q.cap - 1) % q.cap <
        (q.data.set ((q.front + q.cap - 1) % q.cap) v).length
      rw [hls]
      exact Nat.mod_lt _ hcp
    · show q.back ≤ (q.data.set ((q.front + q.cap - 1) % q.cap) v).length
      rw [hls]
      omega
    · show q.back % (q.data.set ((q.front + q.cap - 1) % q.cap) v).length =
        ((q.front + q.cap - 1) % q.cap + (q.length + 1)) %
          (q.data.set ((q.front + q.cap - 1) % q.cap) v).length
      rw [hls, Nat.mod_add_mod,
        show q.front + q.cap - 1 + (q.length + 1) = q.front + q.length + q.cap from by omega,
        Nat.add_mod_right]
      exact h4
    · show q.initCap ≤ (q.data.set ((q.front + q.cap - 1) % q.cap) v).length
      rw [hls]
      omega

theorem Inv_PopBack (q : Deque α) (hq : q.Inv) : (q.PopBack).2.Inv := by
  obtain ⟨h1, h2, h3, h4, h5, h6⟩ := hq
  have hce : q.cap = q.data.length := rfl
  unfold PopBack
  by_cases h0 : q.length = 0
  · rw [if_pos h0]
    exact ⟨h1, h2, h3, h4, h5, h6⟩
  · rw [if_neg h0]
    dsimp only
    refine ⟨by show q.length - 1 ≤ q.data.length; omega, h2, ?_, ?_, h5, h6⟩
    · show (q.back + q.cap - 1) % q.cap ≤ q.data.length
      have := Nat.mod_lt (q.back + q.cap - 1) (show 0 < q.cap from by omega)
      omega
    · show ((q.back + q.cap - 1) % q.cap) % q.cap = (q.front + (q.length - 1)) % q.cap
      rw [Nat.mod_mod_of_dvd _ (dvd_refl _),
        show q.back + q.cap - 1 = q.back + (q.cap - 1) from by omega,
        ← Nat.mod_add_mod, h4, Nat.mod_add_mod,
        show q.front + q.length + (q.cap - 1) = q.front + (q.length - 1) + q.cap from by omega,
        Nat.add_mod_right]

theorem Inv_PopFront (q : Deque α) (hq : q.Inv) : (q.PopFront).2.Inv := by
  obtain ⟨h1, h2, h3, h4, h5, h6⟩ := hq
  have hce : q.cap = q.data.length := rfl
  unfold PopFront
  by_cases h0 : q.length = 0
  · rw [if_pos h0]
    exact ⟨h1, h2, h3, h4, h5, h6⟩
  · rw [if_neg h0]
    dsimp only
    refine ⟨by show q.length - 1 ≤ q.data.length; omega,
      by show (q.front + 1) % q.cap < q.data.length
         have := Nat.mod_lt (q.front + 1) (show 0 < q.cap from by omega)
         omega,
      h3, ?_, h5, h6⟩
    show q.back % q.cap = ((q.front + 1) % q.cap + (q.length - 1)) % q.cap
    rw [Nat.mod_add_mod, show q.front + 1 + (q.length - 1) = q.front + q.length from by omega]
    exact h4

theorem Inv_Set (q : Deque α) (i : Int) (v : α) (hq : q.Inv) : (q.Set i v).2.Inv := by
  obtain ⟨h1, h2, h3, h4, h5, h6⟩ := hq
  unfold Set
  dsimp only
  by_cases hc : (if i < 0 then i + (q.length : Int) else i) < 0 ∨
      (q.length : Int) ≤ (if i < 0 then i + (q.length : Int) else i)
  · rw [if_pos hc]
    exact ⟨h1, h2, h3, h4, h5, h6⟩
  · rw [if_neg hc]
    have hls : (q.data.set ((q.front + (if i < 0 then i + (q.length : Int) else i).toNat) %
        q.cap) v).length = q.data.length := List.length_set _ _ _
    refine ⟨?_, ?_, ?_, ?_, h5, ?_⟩
    · show q.length ≤ (q.data.set ((q.front +
        (if i < 0 then i + (q.length : Int) else i).toNat) % q.cap) v).length
      rw [hls]
      exact h1
    · show q.front < (q.data.set ((q.front +
        (if i < 0 then i + (q.length : Int) else i).toNat) % q.cap) v).length
      rw [hls]
      exact h2
    · show q.back ≤ (q.data.set ((q.front +
        (if i < 0 then i + (q.length : Int) else i).toNat) % q.cap) v).length
      rw [hls]
      exact h3
    · show q.back % (q.data.set ((q.front +
        (if i < 0 then i + (q.length : Int) else i).toNat) % q.cap) v).length =
        (q.front + q.length) % (q.data.set ((q.front +
          (if i < 0 then i + (q.length : Int) else i).toNat) % q.cap) v).length
      rw [hls]
      exact h4
    · show q.initCap ≤ (q.data.set ((q.front +
        (if i < 0 then i + (q.length : Int) else i).toNat) % q.cap) v).length
      rw [hls]
      exact h6

theorem Inv_Swap (q : Deque α) (i j : Int) (hq : q.Inv) : (q.Swap i j).2.Inv := by
  obtain ⟨h1, h2, h3, h4, h5, h6⟩ := hq
  unfold Swap
  by_cases hij : i = j
  · rw [if_pos hij]
    exact ⟨h1, h2, h3, h4, h5, h6⟩
  · rw [if_neg hij]
    dsimp only
    by_cases hc : (if i < 0 then i + (q.length : Int) else i) < 0 ∨
        (q.length : Int) ≤ (if i < 0 then i + (q.length : Int) else i) ∨
        (if j < 0 then j + (q.length : Int) else j) < 0 ∨
        (q.length : Int) ≤ (if j < 0 then j + (q.length : Int) else j)
    · rw [if_pos hc]
      exact ⟨h1, h2, h3, h4, h5, h6⟩
    · rw [if_neg hc]
      have hls : (swapIdx q.data
          ((q.front + (if i < 0 then i + (q.length : Int) else i).toNat) % q.cap)
          ((q.front + (if j < 0 then j + (q.length : Int) else j).toNat) % q.cap)).length =
          q.data.length := length_swapIdx _ _ _
      refine ⟨?_, ?_, ?_, ?_, h5, ?_⟩
      · show q.length ≤ (swapIdx q.data
          ((q.front + (if i < 0 then i + (q.length : Int) else i).toNat) % q.cap)
          ((q.front + (if j < 0 then j + (q.length : Int) else j).toNat) % q.cap)).length
        rw [hls]
        exact h1
      · show q.front < (swapIdx q.data
          ((q.front + (if i < 0 then i + (q.length : Int) else i).toNat) % q.cap)
          ((q.front + (if j < 0 then j + (q.length : Int) else j).toNat) % q.cap)).length
        rw [hls]
        exact h2
      · show q.back ≤ (swapIdx q.data
          ((q.front + (if i < 0 then i + (q.length : Int) else i).toNat) % q.cap)
          ((q.front + (if j < 0 then j + (q.length : Int) else j).toNat) % q.cap)).length
        rw [hls]
        exact h3
      · show q.back % (swapIdx q.data
          ((q.front + (if i < 0 then i + (q.length : Int) else i).toNat) % q.cap)
          ((q.front + (if j < 0 then j + (q.length : Int) else j).toNat) % q.cap)).length =
          (q.front + q.length) % (swapIdx q.data
          ((q.front + (if i < 0 then i + (q.length : Int) else i).toNat) % q.cap)
          ((q.front + (if j < 0 then j + (q.length : Int) else j).toNat) % q.cap)).length
        rw [hls]
        exact h4
      · show q.initCap ≤ (swapIdx q.data
          ((q.front + (if i < 0 then i + (q.length : Int) else i).toNat) % q.cap)
          ((q.front + (if j < 0 then j + (q.length : Int) else j).toNat) % q.cap)).length
        rw [hls]
        exact h6

theorem swapIdxChecked_length (l l1 : List α) (i j : Nat)
    (h : swapIdxChecked l i j = some l1) : l1.length = l.length := by
  unfold swapIdxChecked at h
  split at h
  · injection h with h2
    rw [← h2, length_swapIdx]
  · exact Option.noConfusion h

theorem revCircLoopGo_some_length (s e c : Nat) :
    ∀ (f i : Nat) (l l1 : List α), revCircLoopGo s e c i f l = some l1 →
      l1.length = l.length := by
  intro f
  induction f with
  | zero =>
    intro i l l1 h
    rw [revCircLoopGo] at h
    injection h with h2
    rw [← h2]
  | succ f ih =>
    intro i l l1 h
    rw [revCircLoopGo] at h
    split at h
    · exact Option.noConfusion h
    · rename_i l2 heq
      rw [ih (i + 1) l2 l1 h, swapIdxChecked_length l l2 _ _ heq]

theorem reverseCircular_some_length (l l1 : List α) (s e c : Nat)
    (h : reverseCircular l s e c = some l1) : l1.length = l.length := by
  unfold reverseCircular at h
  exact revCircLoopGo_some_length s e (2 ^ 30) (c / 2) 0 l l1 h

theorem Inv_Rotate_some (q : Deque α) (n : Int) (q1 : Deque α) (hq : q.Inv)
    (h : q.Rotate n = some q1) : q1.Inv := by
  obtain ⟨h1, h2, h3, h4, h5, h6⟩ := hq
  have hce : q.cap = q.data.length := rfl
  unfold Rotate at h
  by_cases hL : q.length ≤ 1
  · rw [if_pos hL] at h
    injection h with h7
    rw [← h7]
    exact ⟨h1, h2, h3, h4, h5, h6⟩
  · rw [if_neg hL] at h
    dsimp only at h
    repeat' split at h
    all_goals first
      | exact Option.noConfusion h
      | (injection h with h7
         rw [← h7]
         exact ⟨h1, h2, h3, h4, h5, h6⟩)
      | (rename_i x1 d1 he1 x2 d2 he2 x3 d3 he3
         injection h with h7
         rw [← h7]
         have hd : d3.length = q.data.length := by
           rw [reverseCircular_some_length _ _ _ _ _ he3,
             reverseCircular_some_length _ _ _ _ _ he2,
             reverseCircular_some_length _ _ _ _ _ he1]
         refine ⟨?_, ?_, ?_, ?_, h5, ?_⟩
         · show q.length ≤ d3.length
           omega
         · show q.front < d3.length
           omega
         · show q.back ≤ d3.length
           omega
         · show q.back % d3.length = (q.front + q.length) % d3.length
           rw [hd, ← hce]
           exact h4
         · show q.initCap ≤ d3.length
           omega)

theorem Inv_Reverse (q : Deque α) (hq : q.Inv) : q.Reverse.Inv := by
  obtain ⟨h1, h2, h3, h4, h5, h6⟩ := hq
  unfold Reverse
  by_cases hL : q.length ≤ 1
  · rw [if_pos hL]
    exact ⟨h1, h2, h3, h4, h5, h6⟩
  · rw [if_neg hL]
    have hls : (revCircLoop q.front (q.front + q.length) q.cap 0 (q.length / 2)
        q.data).length = q.data.length := revCircLoop_length _ _ _ _ _ _
    refine ⟨?_, ?_, ?_, ?_, h5, ?_⟩
    · show q.length ≤ (revCircLoop q.front (q.front + q.length) q.cap 0 (q.length / 2)
        q.data).length
      rw [hls]
      exact h1
    · show q.front < (revCircLoop q.front (q.front + q.length) q.cap 0 (q.length / 2)
        q.data).length
      rw [hls]
      exact h2
    · show q.back ≤ (revCircLoop q.front (q.front + q.length) q.cap 0 (q.length / 2)
        q.data).length
      rw [hls]
      exact h3
    · show q.back % (revCircLoop q.front (q.front + q.length) q.cap 0 (q.length / 2)
        q.data).length = (q.front + q.length) % (revCircLoop q.front (q.front + q.length)
        q.cap 0 (q.length / 2) q.data).length
      rw [hls]
      exact h4
    · show q.initCap ≤ (revCircLoop q.front (q.front + q.length) q.cap 0 (q.length / 2)
        q.data).length
      rw [hls]
      exact h6

theorem Inv_ShrinkToFit (q : Deque α) (hq : q.Inv) : q.ShrinkToFit.Inv := by
  obtain ⟨h1, h2, h3, h4, h5, h6⟩ := hq
  unfold ShrinkToFit
  by_cases h0 : q.length = 0
  · rw [if_pos h0]
    exact Inv_Init q.initCap
  · rw [if_neg h0]
    by_cases hfull : q.length = q.cap
    · rw [if_pos hfull]
      exact ⟨h1, h2, h3, h4, h5, h6⟩
    · rw [if_neg hfull]
      exact Inv_internalResize q _ ⟨h1, h2, h3, h4, h5, h6⟩ (by split <;> omega)
        (by split <;> omega)

theorem Copy_partial_inv (q : Deque α) (hq : q.Inv) :
    (q.Copy).length ≤ (q.Copy).cap ∧ 8 ≤ (q.Copy).initCap ∧
    (q.Copy).front < (q.Copy).cap ∧ (q.Copy).back ≤ (q.Copy).cap ∧
    (q.Copy).back % (q.Copy).cap = ((q.Copy).front + (q.Copy).length) % (q.Copy).cap := by
  obtain ⟨h1, h2, h3, h4, h5, h6⟩ := hq
  have hce : q.cap = q.data.length := rfl
  unfold Copy
  by_cases h0 : q.length = 0
  · rw [if_pos h0]
    obtain ⟨n1, n2, n3, n4, n5, n6⟩ :=
      Inv_Init (α := α) (if 0 < q.Capacity then q.Capacity else 8)
    exact ⟨n1, n5, n2, n3, n4⟩
  · rw [if_neg h0]
    have hic : 8 ≤ (Deque.NewDeque q.Capacity : Deque α).initCap :=
      (Init_initCap_deque (if 0 < q.Capacity then q.Capacity else 8)).2
    have hgl : (goMake q.length q.liveWindow : List α).length = q.length := goMake_length _ _
    refine ⟨?_, hic, ?_, ?_, ?_⟩
    · show q.length ≤ (goMake q.length q.liveWindow : List α).length
      omega
    · show (0 : Nat) < (goMake q.length q.liveWindow : List α).length
      omega
    · show q.length ≤ (goMake q.length q.liveWindow : List α).length
      omega
    · show q.length % (goMake q.length q.liveWindow : List α).length =
        (0 + q.length) % (goMake q.length q.liveWindow : List α).length
      rw [Nat.zero_add]

end Deque

/-- C9 counterexample: the deque returned by `Copy` from a 5-element source
of capacity 8 has `initCap = 8` but capacity 5, so the listed operation
`Copy` does not preserve the capacity-at-least-initial-capacity floor. -/
theorem C9_counterexample :
    (exD5.Copy).initCap = 8 ∧ (exD5.Copy).Capacity = 5 ∧
    ¬((exD5.Copy).initCap ≤ (exD5.Copy).Capacity) := by
  decide

/-- C9 (amended): every listed public deque operation preserves the full
state invariant (0 ≤ length ≤ capacity, boundaries in range and consistent,
capacity at least the initial-capacity floor, which is at least 8) on the
deque it operates on — for `Rotate`, whenever it completes at all (on a
wrapped live window with a nonzero normalized amount it panics instead,
yielding no state); the fresh deque returned by `Copy` satisfies
0 ≤ length ≤ capacity, valid boundaries, and 8 ≤ initCap, but its capacity
can be below its own initial-capacity floor. -/
theorem C9_operation_invariants (q : Deque α) (v : α) (i j n : Int) (m : Nat)
    (hq : q.Inv) :
    (Deque.Init m : Deque α).Inv ∧
    (q.PushBack v).Inv ∧ (q.PushFront v).Inv ∧
    (q.PopBack).2.Inv ∧ (q.PopFront).2.Inv ∧
    (q.Set i v).2.Inv ∧ (q.Swap i j).2.Inv ∧
    (∀ q1 : Deque α, q.Rotate n = some q1 → q1.Inv) ∧ q.Reverse.Inv ∧
    q.Clear.Inv ∧ q.ShrinkToFit.Inv ∧
    ((q.Copy).length ≤ (q.Copy).cap ∧ 8 ≤ (q.Copy).initCap ∧
      (q.Copy).front < (q.Copy).cap ∧ (q.Copy).back ≤ (q.Copy).cap ∧
      (q.Copy).back % (q.Copy).cap = ((q.Copy).front + (q.Copy).length) % (q.Copy).cap) :=
  ⟨Deque.Inv_Init m, Deque.Inv_PushBack q v hq, Deque.Inv_PushFront q v hq,
    Deque.Inv_PopBack q hq, Deque.Inv_PopFront q hq, Deque.Inv_Set q i v hq,
    Deque.Inv_Swap q i j hq, fun q1 h => Deque.Inv_Rotate_some q n q1 hq h,
    Deque.Inv_Reverse q hq,
    Deque.Inv_Clear q hq, Deque.Inv_ShrinkToFit q hq, Deque.Copy_partial_inv q hq⟩

theorem C9_operation_invariants_witness :
    Deque.Inv exD5 ∧ ((exD5.PushBack 6).Inv ∧ (exD5.PopFront).2.Inv ∧ exD5.Reverse.Inv) :=
  ⟨by decide,
    (C9_operation_invariants exD5 6 0 1 3 8 (by decide)).2.1,
    (C9_operation_invariants exD5 6 0 1 3 8 (by decide)).2.2.2.2.1,
    (C9_operation_invariants exD5 6 0 1 3 8 (by decide)).2.2.2.2.2.2.2.2.1⟩

end GoSTL
